import Mathlib

/-!
Verification of the fusion chat route (`app/api/chat/route.js`-style handler).

The development shallowly embeds the route's pure computations in Lean:

* a model of JavaScript JSON values (`JsVal`) together with executable models
  of `JSON.parse` (`jsparse`) and `JSON.stringify` (`stringifyCompact`,
  `stringify2` for the 2-space pretty form used by `heuristicMerge`);
* the `heuristicMerge` fallback merger, translated clause by clause;
* the two provider adapters `callGemini` / `callOpenAI`, the
  `synthesizeWithOpenAI` synthesizer and the `POST` request handler, with the
  network modelled as an explicit oracle (`Except String JsVal`: `.error e`
  models the HTTP client throwing with message `e`, `.ok v` models a 2xx
  response whose JSON body is `v`) and with effect flags recording which
  upstream calls were issued.

Modelling conventions (divergences from JavaScript are deliberate and local):

* JSON numbers are kept as their source lexeme (`JsVal.num "1e2"`), not as
  IEEE-754 floats; consequently re-serialization prints the lexeme back
  instead of the float's canonical decimal form.  All claims checked here
  involve only numerals that JavaScript prints identically.
* JavaScript enumerates integer-like object keys first; this reordering is
  not modelled (keys keep pure insertion order).  Duplicate keys are
  modelled exactly as in JavaScript: the later value overwrites the earlier
  one at the earlier key's position.
* `\uXXXX` escapes denoting surrogate halves are unrepresentable in Lean
  strings and decode to `Char.ofNat`'s default; no claim involves them.
* `.toUpperCase()` and `.trim()` are modelled on their ASCII/common-space
  behaviour, which is all the marker logic exercises.
-/

/-- Model of a JavaScript JSON value. Numbers carry their source lexeme. -/
inductive JsVal where
  | null : JsVal
  | bool : Bool → JsVal
  | num : String → JsVal
  | str : String → JsVal
  | arr : List JsVal → JsVal
  | obj : List (String × JsVal) → JsVal
deriving Repr

/-- JSON whitespace characters accepted between tokens by `JSON.parse`. -/
def isJsonWs (c : Char) : Bool :=
  c = ' ' || c = '\t' || c = '\n' || c = '\r'

/-- Drop leading JSON whitespace. -/
def skipWs : List Char → List Char
  | [] => []
  | c :: cs => if isJsonWs c then skipWs cs else c :: cs

/-- Value of a hexadecimal digit, as used by `\uXXXX` escapes. -/
def hexVal (c : Char) : Option Nat :=
  if '0' ≤ c ∧ c ≤ '9' then some (c.toNat - '0'.toNat)
  else if 'a' ≤ c ∧ c ≤ 'f' then some (c.toNat - 'a'.toNat + 10)
  else if 'A' ≤ c ∧ c ≤ 'F' then some (c.toNat - 'A'.toNat + 10)
  else none

/-- Body of a JSON string literal: characters until the closing quote,
decoding escapes; raw control characters are rejected as `JSON.parse` does. -/
def parseStrChars : List Char → Option (List Char × List Char)
  | [] => none
  | c :: rest =>
    if c = '"' then some ([], rest)
    else if c = '\\' then
      match rest with
      | [] => none
      | e :: r =>
        if e = '"' then (parseStrChars r).map (fun p => ('"' :: p.1, p.2))
        else if e = '\\' then (parseStrChars r).map (fun p => ('\\' :: p.1, p.2))
        else if e = '/' then (parseStrChars r).map (fun p => ('/' :: p.1, p.2))
        else if e = 'b' then (parseStrChars r).map (fun p => ('\x08' :: p.1, p.2))
        else if e = 'f' then (parseStrChars r).map (fun p => ('\x0c' :: p.1, p.2))
        else if e = 'n' then (parseStrChars r).map (fun p => ('\n' :: p.1, p.2))
        else if e = 'r' then (parseStrChars r).map (fun p => ('\r' :: p.1, p.2))
        else if e = 't' then (parseStrChars r).map (fun p => ('\t' :: p.1, p.2))
        else if e = 'u' then
          match r with
          | a :: b :: c2 :: d :: r2 =>
            match hexVal a, hexVal b, hexVal c2, hexVal d with
            | some x, some y, some z, some w =>
              (parseStrChars r2).map
                (fun p => (Char.ofNat (((x * 16 + y) * 16 + z) * 16 + w) :: p.1, p.2))
            | _, _, _, _ => none
          | _ => none
        else none
    else if c.toNat < 32 then none
    else (parseStrChars rest).map (fun p => (c :: p.1, p.2))
termination_by structural cs => cs

/-- Longest prefix of decimal digits, with the remainder. -/
def takeDigits : List Char → List Char × List Char
  | [] => ([], [])
  | c :: cs =>
    if c.isDigit then
      let p := takeDigits cs
      (c :: p.1, p.2)
    else ([], c :: cs)

/-- Integer part of a JSON number: `0`, or a nonzero digit and more digits. -/
def parseIntPart : List Char → Option (List Char × List Char)
  | [] => none
  | c :: cs =>
    if c = '0' then some (['0'], cs)
    else if c.isDigit then
      let p := takeDigits cs
      some (c :: p.1, p.2)
    else none

/-- Optional fraction part; a `.` not followed by a digit is a syntax error. -/
def parseFrac : List Char → Option (List Char × List Char)
  | [] => some ([], [])
  | c :: cs =>
    if c = '.' then
      match takeDigits cs with
      | ([], _) => none
      | (ds, r) => some ('.' :: ds, r)
    else some ([], c :: cs)

/-- Optional exponent; `e`/`E` not followed by (sign and) a digit is an error. -/
def parseExp : List Char → Option (List Char × List Char)
  | c :: cs =>
    if c = 'e' ∨ c = 'E' then
      match cs with
      | s :: cs' =>
        if s = '+' ∨ s = '-' then
          match takeDigits cs' with
          | ([], _) => none
          | (ds, r) => some (c :: s :: ds, r)
        else
          match takeDigits cs with
          | ([], _) => none
          | (ds, r) => some (c :: ds, r)
      | [] => none
    else some ([], c :: cs)
  | [] => some ([], [])

/-- JSON number token, returned as its lexeme. -/
def parseNum (cs : List Char) : Option (String × List Char) :=
  let sp : List Char × List Char :=
    match cs with
    | [] => ([], [])
    | c :: r => if c = '-' then (['-'], r) else ([], c :: r)
  match parseIntPart sp.2 with
  | none => none
  | some (ip, cs2) =>
    match parseFrac cs2 with
    | none => none
    | some (fp, cs3) =>
      match parseExp cs3 with
      | none => none
      | some (ep, cs4) => some (⟨sp.1 ++ ip ++ fp ++ ep⟩, cs4)

/-- Insert a parsed object member the way JavaScript object literals do:
a repeated key overwrites the value in place, a fresh key is appended. -/
def insertKey (kvs : List (String × JsVal)) (k : String) (v : JsVal) :
    List (String × JsVal) :=
  match kvs with
  | [] => [(k, v)]
  | (k', v') :: rest =>
    if k' = k then (k', v) :: rest
    else (k', v') :: insertKey rest k v

/-- Fold a textual member list into a JavaScript object (last write wins). -/
def buildObj (ms : List (String × JsVal)) : List (String × JsVal) :=
  ms.foldl (fun acc p => insertKey acc p.1 p.2) []

mutual

/-- Fueled recursive-descent JSON value parser, modelling `JSON.parse`'s
grammar; returns the value and the unconsumed remainder. -/
def parseVal : Nat → List Char → Option (JsVal × List Char)
  | 0, _ => none
  | Nat.succ fuel, cs =>
    match skipWs cs with
    | [] => none
    | c :: rest =>
      if c = 'n' then
        match rest with
        | 'u' :: 'l' :: 'l' :: r => some (.null, r)
        | _ => none
      else if c = 't' then
        match rest with
        | 'r' :: 'u' :: 'e' :: r => some (.bool true, r)
        | _ => none
      else if c = 'f' then
        match rest with
        | 'a' :: 'l' :: 's' :: 'e' :: r => some (.bool false, r)
        | _ => none
      else if c = '"' then
        match parseStrChars rest with
        | some (s, r) => some (.str ⟨s⟩, r)
        | none => none
      else if c = '[' then
        match skipWs rest with
        | [] => none
        | c2 :: r2 =>
          if c2 = ']' then some (.arr [], r2)
          else
            match parseElems fuel (c2 :: r2) with
            | some (vs, r) => some (.arr vs, r)
            | none => none
      else if c = '{' then
        match skipWs rest with
        | [] => none
        | c2 :: r2 =>
          if c2 = '}' then some (.obj [], r2)
          else
            match parseMembers fuel (c2 :: r2) with
            | some (ms, r) => some (.obj (buildObj ms), r)
            | none => none
      else
        match parseNum (c :: rest) with
        | some (lex, r) => some (.num lex, r)
        | none => none

/-- Comma-separated array elements up to the closing bracket. -/
def parseElems : Nat → List Char → Option (List JsVal × List Char)
  | 0, _ => none
  | Nat.succ fuel, cs =>
    match parseVal fuel cs with
    | none => none
    | some (v, r) =>
      match skipWs r with
      | [] => none
      | c2 :: r2 =>
        if c2 = ',' then
          match parseElems fuel r2 with
          | some (vs, r3) => some (v :: vs, r3)
          | none => none
        else if c2 = ']' then some ([v], r2)
        else none

/-- Comma-separated object members up to the closing brace, in textual order. -/
def parseMembers : Nat → List Char → Option (List (String × JsVal) × List Char)
  | 0, _ => none
  | Nat.succ fuel, cs =>
    match skipWs cs with
    | [] => none
    | c0 :: rest =>
      if c0 = '"' then
        match parseStrChars rest with
        | none => none
        | some (k, r) =>
          match skipWs r with
          | [] => none
          | c1 :: r2 =>
            if c1 = ':' then
              match parseVal fuel r2 with
              | none => none
              | some (v, r3) =>
                match skipWs r3 with
                | [] => none
                | c2 :: r4 =>
                  if c2 = ',' then
                    match parseMembers fuel r4 with
                    | some (ms, r5) => some ((⟨k⟩, v) :: ms, r5)
                    | none => none
                  else if c2 = '}' then some ([(⟨k⟩, v)], r4)
                  else none
            else none
      else none

end

/-- Model of `JSON.parse`: parse one value, then require only trailing
whitespace.  The fuel `length + 1` dominates the recursion depth, which
consumes at least one input character per two fuel units. -/
def jsparse (s : String) : Option JsVal :=
  match parseVal (s.data.length + 1) s.data with
  | some (v, rest) => if skipWs rest = [] then some v else none
  | none => none

/-- Escape one character the way `JSON.stringify` escapes string contents. -/
def escChar (c : Char) : List Char :=
  if c = '"' then ['\\', '"']
  else if c = '\\' then ['\\', '\\']
  else if c = '\x08' then ['\\', 'b']
  else if c = '\t' then ['\\', 't']
  else if c = '\n' then ['\\', 'n']
  else if c = '\x0c' then ['\\', 'f']
  else if c = '\r' then ['\\', 'r']
  else if c.toNat < 32 then
    ['\\', 'u', '0', '0', (Nat.digitChar (c.toNat / 16)), (Nat.digitChar (c.toNat % 16))]
  else [c]

/-- Concatenated escapings of a character list. -/
def escList : List Char → List Char
  | [] => []
  | c :: cs => escChar c ++ escList cs

/-- A serialized JSON string literal, quotes included. -/
def quoteStr (s : String) : List Char :=
  '"' :: (escList s.data ++ ['"'])

/-- Two-space indentation at nesting depth `n`, as `JSON.stringify(v, null, 2)`
emits it. -/
def indentSp (n : Nat) : List Char :=
  List.replicate (2 * n) ' '

mutual

/-- Characters of `JSON.stringify(v, null, 2)` when printed at depth `lvl`. -/
def renderP : Nat → JsVal → List Char
  | _, .null => ['n', 'u', 'l', 'l']
  | _, .bool b => if b then ['t', 'r', 'u', 'e'] else ['f', 'a', 'l', 's', 'e']
  | _, .num lex => lex.data
  | _, .str s => quoteStr s
  | _, .arr [] => ['[', ']']
  | lvl, .arr (x :: xs) =>
    '[' :: '\n' :: (indentSp (lvl + 1) ++ renderP (lvl + 1) x ++
      renderElemsP (lvl + 1) xs ++ '\n' :: (indentSp lvl ++ [']']))
  | _, .obj [] => ['{', '}']
  | lvl, .obj (kv :: kvs) =>
    '{' :: '\n' :: (indentSp (lvl + 1) ++ renderMemberP (lvl + 1) kv ++
      renderMembersP (lvl + 1) kvs ++ '\n' :: (indentSp lvl ++ ['}']))

/-- Remaining pretty-printed array elements, each preceded by `,\n` + indent. -/
def renderElemsP : Nat → List JsVal → List Char
  | _, [] => []
  | lvl, x :: xs =>
    ',' :: '\n' :: (indentSp lvl ++ renderP lvl x ++ renderElemsP lvl xs)

/-- One pretty-printed object member, `"key": value`. -/
def renderMemberP : Nat → String × JsVal → List Char
  | lvl, (k, v) => quoteStr k ++ ':' :: ' ' :: renderP lvl v

/-- Remaining pretty-printed object members, each preceded by `,\n` + indent. -/
def renderMembersP : Nat → List (String × JsVal) → List Char
  | _, [] => []
  | lvl, kv :: kvs =>
    ',' :: '\n' :: (indentSp lvl ++ renderMemberP lvl kv ++ renderMembersP lvl kvs)

end

/-- Model of `JSON.stringify(v, null, 2)`. -/
def stringify2 (v : JsVal) : String :=
  ⟨renderP 0 v⟩

mutual

/-- Characters of the compact `JSON.stringify(v)` (no indent argument). -/
def renderC : JsVal → List Char
  | .null => ['n', 'u', 'l', 'l']
  | .bool b => if b then ['t', 'r', 'u', 'e'] else ['f', 'a', 'l', 's', 'e']
  | .num lex => lex.data
  | .str s => quoteStr s
  | .arr [] => ['[', ']']
  | .arr (x :: xs) => '[' :: (renderC x ++ renderElemsC xs ++ [']'])
  | .obj [] => ['{', '}']
  | .obj (kv :: kvs) => '{' :: (renderMemberC kv ++ renderMembersC kvs ++ ['}'])

/-- Remaining compact array elements, comma-separated. -/
def renderElemsC : List JsVal → List Char
  | [] => []
  | x :: xs => ',' :: (renderC x ++ renderElemsC xs)

/-- One compact object member. -/
def renderMemberC : String × JsVal → List Char
  | (k, v) => quoteStr k ++ ':' :: renderC v

/-- Remaining compact object members, comma-separated. -/
def renderMembersC : List (String × JsVal) → List Char
  | [] => []
  | kv :: kvs => ',' :: (renderMemberC kv ++ renderMembersC kvs)

end

/-- Model of the compact `JSON.stringify(v)`. -/
def stringifyCompact (v : JsVal) : String :=
  ⟨renderC v⟩

/-- Model of JavaScript string truthiness coalescing `a || b` for strings. -/
def strOr (a b : String) : String :=
  if a = "" then b else a

/-- Model of `.toUpperCase()` (ASCII range, which the markers exercise). -/
def jsUpper (s : String) : String :=
  ⟨s.data.map Char.toUpper⟩

/-- Characters stripped by JavaScript's `String.prototype.trim`. -/
def isJsTrimWs (c : Char) : Bool :=
  c = ' ' || c = '\t' || c = '\n' || c = '\r' || c = '\x0b' || c = '\x0c' ||
  c = '\u00A0' || c = '\uFEFF' || c = '\u2028' || c = '\u2029'

/-- Model of `String.prototype.trim`. -/
def jsTrim (s : String) : String :=
  ⟨((s.data.dropWhile isJsTrimWs).reverse.dropWhile isJsTrimWs).reverse⟩

/-- Model of `String.prototype.slice(n)` (drop the first `n` characters). -/
def sliceFrom (s : String) (n : Nat) : String :=
  ⟨s.data.drop n⟩

/-- Index of the first occurrence of `needle` in `hay`, as
`String.prototype.indexOf` computes it (`none` models `-1`). -/
def firstIdx (needle : List Char) : List Char → Option Nat
  | [] => if needle = [] then some 0 else none
  | c :: t =>
    if needle.isPrefixOf (c :: t) then some 0
    else (firstIdx needle t).map (· + 1)

/-- Model of `String.prototype.startsWith` (and Lean's `String.startsWith`,
restated over character lists so that it reduces definitionally). -/
def jsStartsWith (s p : String) : Bool :=
  p.data.isPrefixOf s.data

/-- The four recognized section markers, in scan order. -/
def markers : List String :=
  ["SCRIPT:", "VIDEO:", "ASSETS:", "TRANSCRIPT:"]

/-- The `txt.toUpperCase().includes(m)` / `.indexOf(m)` / `.slice(...).trim()`
sequence: the trimmed text following the first (case-insensitive) occurrence
of marker `m`, if any. -/
def markerSegment (txt m : String) : Option String :=
  match firstIdx m.data (jsUpper txt).data with
  | none => none
  | some idx => some (jsTrim (sliceFrom txt (idx + m.length)))

/-- Accumulator buckets of the marker-based merge. -/
structure MergeParts where
  script : String
  video : String
  general : String
deriving Repr, DecidableEq

/-- One loop iteration of the source's `extractByMarker`: route marker `m`'s
trailing segment into the bucket selected by the marker's name. -/
def applyMarker (txt : String) (p : MergeParts) (m : String) : MergeParts :=
  match markerSegment txt m with
  | none => p
  | some seg =>
    if jsStartsWith m "SCRIPT" then { p with script := p.script ++ "\n" ++ seg }
    else if jsStartsWith m "VIDEO" then { p with video := p.video ++ "\n" ++ seg }
    else { p with general := p.general ++ "\n" ++ seg }

/-- The source's `extractByMarker(txt)`: fold all four markers over `txt`,
mutating the shared `parts` accumulator. -/
def extractByMarker (p : MergeParts) (txt : String) : MergeParts :=
  markers.foldl (applyMarker txt) p

/-- The "nothing found" branch of `heuristicMerge`: annotate both raw replies
and prefer the longer one (ties go to OpenAI). -/
def longestWins (geminiText openaiText : String) : String :=
  let prefer := if geminiText.length ≤ openaiText.length then openaiText else geminiText
  "--Merged result (heuristic)--\n\n[From Gemini]\n" ++ strOr geminiText "(no reply)" ++
    "\n\n[From OpenAI]\n" ++ strOr openaiText "(no reply)" ++
    "\n\n[Preferred]\n" ++ prefer ++ "\n"

/-- The marker-based portion of `heuristicMerge` (everything after the JSON
attempt): bucket extraction, the longest-wins fallback when all buckets are
empty, otherwise the fixed-order sectioned output. -/
def markerMerge (geminiText openaiText : String) : String :=
  let parts := extractByMarker (extractByMarker ⟨"", "", ""⟩ geminiText) openaiText
  if parts.script = "" ∧ parts.video = "" ∧ parts.general = "" then
    longestWins geminiText openaiText
  else
    "--Merged Result (heuristic)--\n" ++
      (if parts.script = "" then "" else "\n== Script ==\n" ++ parts.script ++ "\n") ++
      (if parts.video = "" then ""
       else "\n== Video Instructions / Assets ==\n" ++ parts.video ++ "\n") ++
      (if parts.general = "" then "" else "\n== Other ==\n" ++ parts.general ++ "\n")

/-- The source's `heuristicMerge`: if both replies parse as JSON return the
pretty-printed nesting under `merged.gemini` / `merged.openai`; otherwise
fall through to the marker-based step. -/
def heuristicMerge (geminiText openaiText : String) : String :=
  match jsparse geminiText, jsparse openaiText with
  | some gjson, some ojson =>
    stringify2 (.obj [("merged", .obj [("gemini", gjson), ("openai", ojson)])])
  | _, _ => markerMerge geminiText openaiText

/-- JavaScript truthiness of a JSON value (`0`, `-0`, `""`, `null`, `false`
are falsy; every array or object is truthy). -/
def jsTruthy : JsVal → Bool
  | .null => false
  | .bool b => b
  | .num lex =>
    !((lex.data.takeWhile (fun c => c ≠ 'e' ∧ c ≠ 'E')).all
      (fun c => !c.isDigit || c = '0'))
  | .str s => s ≠ ""
  | .arr _ => true
  | .obj _ => true

/-- Property read `v[k]` (`?.` navigation); non-objects have no data fields. -/
def getField : JsVal → String → Option JsVal
  | .obj kvs, k => (kvs.find? (fun p => p.1 = k)).map Prod.snd
  | _, _ => none

/-- Element read `v[i]`; arrays index their elements, strings their chars. -/
def jsIndex : JsVal → Nat → Option JsVal
  | .arr xs, i => xs.get? i
  | .str s, i => (s.data.get? i).map (fun c => .str ⟨[c]⟩)
  | _, _ => none

/-- The Gemini reply-extraction path
`raw?.candidates?.[0]?.content?.parts?.[0]?.text`. -/
def geminiCandidate (raw : JsVal) : Option JsVal :=
  ((((getField raw "candidates").bind (jsIndex · 0)).bind
    (getField · "content")).bind (getField · "parts")).bind
    (jsIndex · 0) |>.bind (getField · "text")

/-- The OpenAI reply-extraction path
`res.data?.choices?.[0]?.message?.content`. -/
def openaiContent (raw : JsVal) : Option JsVal :=
  ((getField raw "choices").bind (jsIndex · 0)).bind
    (getField · "message") |>.bind (getField · "content")

mutual

/-- JavaScript string coercion of a value, as a template literal performs it. -/
def jsDisplay : JsVal → String
  | .null => "null"
  | .bool true => "true"
  | .bool false => "false"
  | .num lex => lex
  | .str s => s
  | .arr xs => jsDisplayList xs
  | .obj _ => "[object Object]"

/-- Array coercion: comma-joined element coercions. -/
def jsDisplayList : List JsVal → String
  | [] => ""
  | [x] => jsDisplay x
  | x :: y :: xs => jsDisplay x ++ "," ++ jsDisplayList (y :: xs)

end

/-- The `r.text || ''` read in the collection loop: the raw value when it is
truthy, the empty string otherwise (`none` models an absent property, which
is falsy).  No string coercion happens here — the source keeps the raw value,
which may be a truthy non-string. -/
def rawOr (t : Option JsVal) : JsVal :=
  match t with
  | none => .str ""
  | some v => if jsTruthy v then v else .str ""

/-- JavaScript `a || b` on raw values. -/
def jsOr (a b : JsVal) : JsVal :=
  if jsTruthy a then a else b

/-- The source's `heuristicMerge` applied to the raw collected values.  The
JSON step works on the string coercions (`JSON.parse` calls `ToString` on
its argument) and its failures are caught; the marker step then calls
`extractByMarker(value || '')`, so a falsy value is replaced by the empty
string while a truthy non-string reaches `txt.toUpperCase()` and throws a
`TypeError` — modelled as `none`, which the handler's outer catch turns into
the fixed 500 reply.  In the longest-wins fallback the source interpolates
the raw `prefer` value into a template literal, hence the `jsDisplay`
coercion there; the annotated headings use `value || '(no reply)'`, which on
the values reaching this branch equals `strOr` of the coerced string. -/
def heuristicMergeJS (g o : JsVal) : Option String :=
  match jsparse (jsDisplay g), jsparse (jsDisplay o) with
  | some gjson, some ojson =>
    some (stringify2 (.obj [("merged",
      .obj [("gemini", gjson), ("openai", ojson)])]))
  | _, _ =>
    match jsOr g (.str ""), jsOr o (.str "") with
    | .str gs, .str os =>
      let parts := extractByMarker (extractByMarker ⟨"", "", ""⟩ gs) os
      if parts.script = "" ∧ parts.video = "" ∧ parts.general = "" then
        some ("--Merged result (heuristic)--\n\n[From Gemini]\n" ++
          strOr gs "(no reply)" ++ "\n\n[From OpenAI]\n" ++ strOr os "(no reply)" ++
          "\n\n[Preferred]\n" ++
          (if gs.length ≤ os.length then jsDisplay o else jsDisplay g) ++ "\n")
      else some (markerMerge gs os)
    | _, _ => none

/-- Result record returned by every adapter and by the synthesizer; absent
object properties are `none`. -/
structure ProviderResult where
  ok : Bool
  text : Option JsVal := none
  raw : Option JsVal := none
  error : Option String := none
deriving Repr

/-- Truthiness of an environment credential (`!!process.env.X`): absent or
empty means missing. -/
def envTruthy : Option String → Bool
  | none => false
  | some s => s ≠ ""

/-- The source's `callGemini`.  The second component records whether a
network request was issued.  Note the source never tests `GEMINI_API_KEY`:
the key is only forwarded as a query parameter, so the request is always
sent; an absent candidate field (or a falsy one) degrades to serializing the
whole payload. -/
def callGemini (key : Option String) (resp : Except String JsVal) :
    ProviderResult × Bool :=
  match key, resp with
  | _, .error e => ({ ok := false, error := some e }, true)
  | _, .ok raw =>
    match geminiCandidate raw with
    | some v =>
      if jsTruthy v then ({ ok := true, text := some v, raw := some raw }, true)
      else ({ ok := true, text := some (.str (stringifyCompact raw)), raw := some raw }, true)
    | none => ({ ok := true, text := some (.str (stringifyCompact raw)), raw := some raw }, true)

/-- The source's `callOpenAI`: a falsy `OPENAI_API_KEY` short-circuits to a
failure without touching the network; otherwise the extracted content (which
may be absent) is returned with `ok: true`. -/
def callOpenAI (key : Option String) (resp : Except String JsVal) :
    ProviderResult × Bool :=
  if envTruthy key then
    match resp with
    | .error e => ({ ok := false, error := some e }, true)
    | .ok raw => ({ ok := true, text := openaiContent raw, raw := some raw }, true)
  else ({ ok := false, error := some "OPENAI_API_KEY missing" }, false)

/-- The synthesizer meta-prompt template (data only; it reaches the model
solely through the network oracle). -/
def synthPrompt (geminiText openaiText userPrompt : String) : String :=
  "\nYou are a synthesizer. The user asked:\n\"\"\"" ++ userPrompt ++
    "\"\"\"\n\nGemini replied:\n\"\"\"" ++ geminiText ++
    "\"\"\"\n\nOpenAI replied:\n\"\"\"" ++ openaiText ++
    "\"\"\"\n\nReturn a single, best possible combined response. \n" ++
    "- If one response contains a script and the other contains video instructions, produce JSON with fields: \x7b\"script\": \"...\", \"video_instructions\": \"...\", \"notes\": \"...\"\x7d.\n" ++
    "- If both are text answers, produce a merged concise answer and present any concrete artifacts (code blocks, scripts, or step lists).\n" ++
    "- Keep output machine-friendly: if needed return JSON. Otherwise return well-structured Arabic text.\n"

/-- The source's `synthesizeWithOpenAI`: key check, then one chat-completions
call whose extracted content (possibly absent) is returned with `ok: true`. -/
def synthesizeWithOpenAI (key : Option String) (resp : Except String JsVal) :
    ProviderResult × Bool :=
  if envTruthy key then
    match resp with
    | .error e => ({ ok := false, error := some e }, true)
    | .ok raw => ({ ok := true, text := openaiContent raw }, true)
  else ({ ok := false, error := some "OPENAI_API_KEY missing" }, false)

/-- The destructured request body, with the source's defaults already
applied (`mode = 'fusion'`, `model = 'both'`). -/
structure FusionRequest where
  prompt : String
  mode : String := "fusion"
  model : String := "both"
deriving Repr

/-- The process environment the route reads. -/
structure Env where
  geminiKey : Option String := none
  openaiKey : Option String := none
deriving Repr

/-- Mutable state of the result-classification loop.  The collected texts are
raw JSON values, exactly as the source keeps them (`let gemT = '', openT =
''` initialises both to the empty string). -/
structure CollectSt where
  gemT : JsVal := .str ""
  openT : JsVal := .str ""
  gemOk : Bool := false
  openOk : Bool := false
deriving Repr

/-- The `r.raw && ...` guard: the raw payload exists and is truthy. -/
def rawTruthy (r : ProviderResult) : Bool :=
  match r.raw with
  | some v => jsTruthy v
  | none => false

/-- The `r.raw?.f` guard: field `f` of the raw payload exists and is truthy. -/
def rawFieldTruthy (r : ProviderResult) (f : String) : Bool :=
  match r.raw with
  | some v =>
    match getField v f with
    | some w => jsTruthy w
    | none => false
  | none => false

/-- The `r.text && r.text.length > 0` guard of the best-guess branch.
Strings and arrays carry a `.length`; for every other value the property is
absent and the guard fails (objects owning a `length` member are not
modelled). -/
def textHasLen (t : Option JsVal) : Bool :=
  match t with
  | some (.str s) => s ≠ ""
  | some (.arr xs) => !xs.isEmpty
  | _ => false

/-- One iteration of the classification loop over the settled results.  The
best-guess branch stores `r.text` itself (no `|| ''` there in the source);
its guard `r.text && r.text.length > 0` already excludes an absent text. -/
def collectStep (st : CollectSt) (r : ProviderResult) : CollectSt :=
  if rawTruthy r ∧ rawFieldTruthy r "candidates" = true then
    { st with gemOk := r.ok, gemT := rawOr r.text }
  else if rawTruthy r ∧ rawFieldTruthy r "choices" = true then
    { st with openOk := r.ok, openT := rawOr r.text }
  else
    match r.text with
    | some t =>
      if textHasLen r.text ∧ jsTruthy st.openT = false then
        if jsTruthy st.gemT = false then { st with gemT := t, gemOk := r.ok }
        else { st with openT := t, openOk := r.ok }
      else st
    | none => st

/-- The JSON response `NextResponse.json(...)` produces: a status code and
the value of the `reply` property (`none` models `undefined`). -/
structure JsResponse where
  status : Nat
  reply : Option JsVal
deriving Repr

/-- Which upstream calls a request actually issued. -/
structure CallTrace where
  geminiCalled : Bool := false
  openaiCalled : Bool := false
  synthCalled : Bool := false
deriving Repr

/-- The fixed localized error reply of the outer catch. -/
def errorReply : String := "⚠️ حدث خطأ في المعالجة"

/-- The dispatched calls and collected texts of one request: which adapters
run (source lines 165-175) and the classification fold (lines 178-191). -/
def collectPhase (env : Env) (req : FusionRequest)
    (geminiResp openaiResp : Except String JsVal) : CollectSt × CallTrace :=
  let wantGemini := req.model = "both" ∨ req.model = "gemini"
  let pushOpenAI := req.model = "openai" ∨ (req.model = "both" ∧ envTruthy env.openaiKey)
  let gemCall := if wantGemini then some (callGemini env.geminiKey geminiResp) else none
  let openCall := if pushOpenAI then some (callOpenAI env.openaiKey openaiResp) else none
  let results :=
    (match gemCall with | some rc => [rc.1] | none => []) ++
    (match openCall with | some rc => [rc.1] | none => [])
  let tr : CallTrace :=
    { geminiCalled := match gemCall with | some rc => rc.2 | none => false
      openaiCalled := match openCall with | some rc => rc.2 | none => false }
  (results.foldl collectStep {}, tr)

/-- The source's `POST` handler.  `body` is the outcome of `req.json()` plus
destructuring (`none` models a parse failure, which the outer catch converts
to the fixed 500 reply); the three `Except` oracles fix what each possible
upstream call would observe.  A `TypeError` thrown inside the heuristic
fallback (`heuristicMergeJS` returning `none`) reaches the same outer catch
and yields the same fixed 500 reply. -/
def POST (env : Env) (body : Option FusionRequest)
    (geminiResp openaiResp synthResp : Except String JsVal) :
    JsResponse × CallTrace :=
  match body with
  | none => ({ status := 500, reply := some (.str errorReply) }, {})
  | some req =>
    let phase := collectPhase env req geminiResp openaiResp
    let st := phase.1
    let tr := phase.2
    if req.mode = "single" then
      if req.model = "gemini" then
        ({ status := 200, reply := some (jsOr st.gemT (.str "لا رد من Gemini")) }, tr)
      else if req.model = "openai" then
        ({ status := 200, reply := some (jsOr st.openT (.str "لا رد من OpenAI")) }, tr)
      else
        ({ status := 200, reply := some (jsOr st.openT (jsOr st.gemT (.str "لا رد"))) }, tr)
    else
      if envTruthy env.openaiKey ∧ (jsTruthy st.gemT ∨ jsTruthy st.openT) then
        let synth := (synthesizeWithOpenAI env.openaiKey synthResp).1
        let tr' := { tr with synthCalled := true }
        if synth.ok then ({ status := 200, reply := synth.text }, tr')
        else
          match heuristicMergeJS st.gemT st.openT with
          | some m => ({ status := 200, reply := some (.str m) }, tr')
          | none => ({ status := 500, reply := some (.str errorReply) }, tr')
      else
        match heuristicMergeJS st.gemT st.openT with
        | some m => ({ status := 200, reply := some (.str m) }, tr)
        | none => ({ status := 500, reply := some (.str errorReply) }, tr)

/-- Concrete well-shaped Gemini payload whose extracted candidate is `"hi"`. -/
def sampleGeminiPayload : JsVal :=
  .obj [("candidates", .arr [.obj [("content",
    .obj [("parts", .arr [.obj [("text", .str "hi")]])])]])]

/-- Contribution of one marker to its accumulator bucket: empty when the
marker is absent, otherwise a newline followed by the trimmed tail. -/
def markerContrib (txt m : String) : String :=
  match markerSegment txt m with
  | none => ""
  | some seg => "\n" ++ seg

/-- Head of the remainder is not a decimal digit (true for the empty list). -/
def headDigitFree : List Char → Bool
  | [] => true
  | c :: _ => !c.isDigit

/-- Head of the remainder differs from a given character. -/
def headCharNe (cs : List Char) (x : Char) : Bool :=
  match cs with
  | [] => true
  | c :: _ => c != x

/-- The remainder cannot extend a preceding number lexeme: its head is not a
digit, a decimal point, or an exponent letter. -/
def numBoundaryB : List Char → Bool
  | [] => true
  | c :: _ => !c.isDigit && c != '.' && c != 'e' && c != 'E'

/-- Shape of the integer part of a JSON number lexeme. -/
def IntShape (ip : List Char) : Prop :=
  ip = ['0'] ∨ ∃ c ds, ip = c :: ds ∧ c.isDigit = true ∧ c ≠ '0' ∧
    ∀ d ∈ ds, d.isDigit = true

/-- Shape of the (possibly empty) fraction part of a JSON number lexeme. -/
def FracShape (fp : List Char) : Prop :=
  fp = [] ∨ ∃ ds, fp = '.' :: ds ∧ ds ≠ [] ∧ ∀ d ∈ ds, d.isDigit = true

/-- Shape of the (possibly empty) exponent part of a JSON number lexeme. -/
def ExpShape (ep : List Char) : Prop :=
  ep = [] ∨ ∃ e sgn ds, ep = e :: (sgn ++ ds) ∧ (e = 'e' ∨ e = 'E') ∧
    (sgn = [] ∨ sgn = ['+'] ∨ sgn = ['-']) ∧ ds ≠ [] ∧ ∀ d ∈ ds, d.isDigit = true

/-- A stored number lexeme is wellformed when re-lexing it consumes exactly
itself.  `jsparse` only ever produces such lexemes. -/
def NumLexOk (lex : String) : Prop :=
  parseNum lex.data = some (lex, [])

/-- Whether an association list carries a given key. -/
def hasKeyB (kvs : List (String × JsVal)) (k : String) : Bool :=
  kvs.any (fun p => p.1 == k)

mutual

/-- Wellformedness of a parsed JSON value: every number lexeme re-lexes to
itself and every object has pairwise distinct keys. -/
def wfVal : JsVal → Bool
  | .null => true
  | .bool _ => true
  | .num lex => decide (parseNum lex.data = some (lex, []))
  | .str _ => true
  | .arr xs => wfList xs
  | .obj kvs => wfMembers kvs

/-- Wellformedness of array elements. -/
def wfList : List JsVal → Bool
  | [] => true
  | x :: xs => wfVal x && wfList xs

/-- Wellformedness of object members, including key distinctness. -/
def wfMembers : List (String × JsVal) → Bool
  | [] => true
  | (k, v) :: kvs => !hasKeyB kvs k && wfVal v && wfMembers kvs

end

mutual

/-- Fuel needed by `parseVal` to reparse a rendered value. -/
def FvVal : JsVal → Nat
  | .arr xs => 1 + FvList xs
  | .obj kvs => 1 + FvMembers kvs
  | _ => 1

/-- Fuel needed by `parseElems` for a rendered element list. -/
def FvList : List JsVal → Nat
  | [] => 1
  | x :: xs => 1 + FvVal x + FvList xs

/-- Fuel needed by `parseMembers` for a rendered member list. -/
def FvMembers : List (String × JsVal) → Nat
  | [] => 1
  | (_, v) :: kvs => 1 + FvVal v + FvMembers kvs

end

/-! ## Helper lemmas shared by the claim theorems -/

/-- The Gemini adapter issues its network request no matter what the
credential is: the source contains no key check before `axios.post`. -/
theorem callGemini_networked (key : Option String) (resp : Except String JsVal) :
    (callGemini key resp).2 = true := by
  unfold callGemini
  rcases resp with e | raw
  · rfl
  · rcases h : geminiCandidate raw with _ | v <;> simp only [h] <;>
      first
        | rfl
        | (split <;> rfl)

/-- A reply in which no marker is found leaves the accumulator untouched. -/
theorem extractByMarker_none (p : MergeParts) (txt : String)
    (h : ∀ m ∈ markers, markerSegment txt m = none) :
    extractByMarker p txt = p := by
  have h1 := h "SCRIPT:" (by simp [markers])
  have h2 := h "VIDEO:" (by simp [markers])
  have h3 := h "ASSETS:" (by simp [markers])
  have h4 := h "TRANSCRIPT:" (by simp [markers])
  simp only [extractByMarker, markers, List.foldl, applyMarker, h1, h2, h3, h4]

/-- Either parse failing sends `heuristicMerge` to the marker-based step. -/
theorem heuristicMerge_fallthrough (g o : String)
    (hjson : jsparse g = none ∨ jsparse o = none) :
    heuristicMerge g o = markerMerge g o := by
  unfold heuristicMerge
  rcases hjson with h | h
  · rw [h]
  · rw [h]; cases jsparse g <;> rfl

/-! ## Claim theorems -/

/-- Counterexample to claim C4 as stated: `"TRANSCRIPT: hi"` contains no
VIDEO:/ASSETS: marker and TRANSCRIPT: at index 0, yet the merged output does
contain a `== Script ==` section (because `TRANSCRIPT:` contains `SCRIPT:`
as a substring), instead of omitting it. -/
theorem C4_counterexample :
    heuristicMerge "TRANSCRIPT: hi" "" =
      "--Merged Result (heuristic)--\n\n== Script ==\n\nhi\n\n== Other ==\n\nhi\n" ∧
    (firstIdx "VIDEO:".data (jsUpper "TRANSCRIPT: hi").data).isSome = false ∧
    (firstIdx "ASSETS:".data (jsUpper "TRANSCRIPT: hi").data).isSome = false ∧
    firstIdx "TRANSCRIPT:".data (jsUpper "TRANSCRIPT: hi").data = some 0 ∧
    (firstIdx "== Script ==".data (heuristicMerge "TRANSCRIPT: hi" "").data).isSome = true :=
  ⟨rfl, rfl, rfl, rfl, rfl⟩

/-- Claim C4 (amended): each marker found (case-insensitively) in a reply
appends the trimmed text after its first occurrence to exactly one bucket —
SCRIPT: to script, VIDEO: to video, ASSETS: and TRANSCRIPT: to general;
but since `TRANSCRIPT:` contains `SCRIPT:` as a substring, a pair of
replies whose only marker token is TRANSCRIPT: produces both an Other and a
Script section (empty sections are still omitted). -/
theorem C4_amended_marker_routing :
    (∀ (p : MergeParts) (txt : String),
      extractByMarker p txt =
        { script := p.script ++ markerContrib txt "SCRIPT:",
          video := p.video ++ markerContrib txt "VIDEO:",
          general := p.general ++ markerContrib txt "ASSETS:" ++
            markerContrib txt "TRANSCRIPT:" }) ∧
    heuristicMerge "TRANSCRIPT: hi" "" =
      "--Merged Result (heuristic)--\n\n== Script ==\n\nhi\n\n== Other ==\n\nhi\n" := by
  constructor
  · intro p txt
    have e1 : jsStartsWith "SCRIPT:" "SCRIPT" = true := rfl
    have e2 : jsStartsWith "VIDEO:" "SCRIPT" = false := rfl
    have e3 : jsStartsWith "VIDEO:" "VIDEO" = true := rfl
    have e4 : jsStartsWith "ASSETS:" "SCRIPT" = false := rfl
    have e5 : jsStartsWith "ASSETS:" "VIDEO" = false := rfl
    have e6 : jsStartsWith "TRANSCRIPT:" "SCRIPT" = false := rfl
    have e7 : jsStartsWith "TRANSCRIPT:" "VIDEO" = false := rfl
    simp only [extractByMarker, markers, List.foldl, applyMarker, markerContrib,
      e1, e2, e3, e4, e5, e6, e7, if_true, if_false]
    cases h1 : markerSegment txt "SCRIPT:" <;>
      cases h2 : markerSegment txt "VIDEO:" <;>
        cases h3 : markerSegment txt "ASSETS:" <;>
          cases h4 : markerSegment txt "TRANSCRIPT:" <;>
            simp [String.append_assoc]
  · rfl

/-- Claim C5: with neither reply parseable as JSON (at least one fails) and
no marker found in either, the merger returns the annotated longest-wins
string: both raw replies under headings with the `(no reply)` placeholder
for empty ones, and the longer reply as the preferred excerpt, ties going
to OpenAI. -/
theorem C5_longest_wins (g o : String)
    (hjson : jsparse g = none ∨ jsparse o = none)
    (hg : ∀ m ∈ markers, markerSegment g m = none)
    (ho : ∀ m ∈ markers, markerSegment o m = none) :
    heuristicMerge g o =
      "--Merged result (heuristic)--\n\n[From Gemini]\n" ++ strOr g "(no reply)" ++
        "\n\n[From OpenAI]\n" ++ strOr o "(no reply)" ++ "\n\n[Preferred]\n" ++
        (if g.length ≤ o.length then o else g) ++ "\n" := by
  rw [heuristicMerge_fallthrough g o hjson]
  unfold markerMerge
  rw [extractByMarker_none _ _ hg, extractByMarker_none _ _ ho]
  simp [longestWins]

/-- Witness for C5 at two plain strings of lengths 5 and 50: the preferred
excerpt is the longer (OpenAI) string. -/
theorem C5_longest_wins_witness :
    heuristicMerge "abcde" "ABCDEFGHIJABCDEFGHIJABCDEFGHIJABCDEFGHIJABCDEFGHIJ" =
      "--Merged result (heuristic)--\n\n[From Gemini]\nabcde\n\n[From OpenAI]\nABCDEFGHIJABCDEFGHIJABCDEFGHIJABCDEFGHIJABCDEFGHIJ\n\n[Preferred]\nABCDEFGHIJABCDEFGHIJABCDEFGHIJABCDEFGHIJABCDEFGHIJ\n" := by
  have h := C5_longest_wins "abcde" "ABCDEFGHIJABCDEFGHIJABCDEFGHIJABCDEFGHIJABCDEFGHIJ"
    (Or.inl rfl) (by decide) (by decide)
  exact h.trans rfl

/-- Counterexample to claim C6 as stated: with its credential absent, the
Gemini adapter still issues the network request, and with a well-shaped
upstream payload it even returns a success result — no short-circuit to
failure happens. -/
theorem C6_counterexample :
    (callGemini none (.ok sampleGeminiPayload)).2 = true ∧
    (callGemini none (.ok sampleGeminiPayload)).1.ok = true ∧
    (callGemini none (.ok sampleGeminiPayload)).1.text = some (.str "hi") :=
  ⟨rfl, rfl, rfl⟩

/-- Claim C6 (amended): only the OpenAI adapter short-circuits on a falsy
credential, failing with the fixed diagnostic and no network call; the
Gemini adapter always issues its request, credential or not. -/
theorem C6_amended_credential_shortcircuit (key : Option String)
    (resp gresp : Except String JsVal) (hk : envTruthy key = false) :
    (callOpenAI key resp).1.ok = false ∧
    (callOpenAI key resp).2 = false ∧
    (callOpenAI key resp).1.error = some "OPENAI_API_KEY missing" ∧
    (callGemini key gresp).2 = true := by
  refine ⟨?_, ?_, ?_, callGemini_networked key gresp⟩ <;> simp [callOpenAI, hk]

/-- Witness for C6 at an absent key: the OpenAI adapter fails without a
network call while the Gemini adapter still calls out. -/
theorem C6_amended_credential_shortcircuit_witness :
    (callOpenAI none (.error "refused")).1.ok = false ∧
    (callOpenAI none (.error "refused")).2 = false ∧
    (callGemini none (.ok sampleGeminiPayload)).2 = true := by
  have h := C6_amended_credential_shortcircuit none (.error "refused")
    (.ok sampleGeminiPayload) rfl
  exact ⟨h.1, h.2.1, h.2.2.2⟩

/-- Counterexample to claim C7 as stated: an OpenAI call that succeeds over
HTTP with a payload lacking `choices[0].message.content` returns a success
result whose reply text is `undefined`, not the serialized raw payload. -/
theorem C7_counterexample :
    (callOpenAI (some "k") (.ok (.obj []))).1.ok = true ∧
    (callOpenAI (some "k") (.ok (.obj []))).2 = true ∧
    (callOpenAI (some "k") (.ok (.obj []))).1.text = none ∧
    (callOpenAI (some "k") (.ok (.obj []))).1.text ≠
      some (.str (stringifyCompact (.obj []))) :=
  ⟨rfl, rfl, rfl, fun h => Option.noConfusion h⟩

/-- Claim C7 (amended): only the Gemini adapter degrades an absent reply
field to the serialization of the whole raw payload; the OpenAI adapter
returns a success result whose text is `undefined` in that situation. -/
theorem C7_amended_missing_field :
    (∀ (key : Option String) (raw : JsVal), geminiCandidate raw = none →
      (callGemini key (.ok raw)).1 =
        { ok := true, text := some (.str (stringifyCompact raw)), raw := some raw }) ∧
    (∀ (key : Option String) (raw : JsVal), envTruthy key = true →
      openaiContent raw = none →
      (callOpenAI key (.ok raw)).1 = { ok := true, text := none, raw := some raw }) := by
  constructor
  · intro key raw h
    simp only [callGemini, h]
  · intro key raw hk h
    simp only [callOpenAI, hk, if_true, h]

/-- Witness for C7 at concrete payloads: Gemini serializes an empty object
payload to text, OpenAI yields `undefined` text on an empty choices list. -/
theorem C7_amended_missing_field_witness :
    (callGemini none (.ok (.obj []))).1 =
      { ok := true, text := some (.str "\x7b\x7d"), raw := some (.obj []) } ∧
    (callOpenAI (some "k") (.ok (.obj [("choices", .arr [])]))).1 =
      { ok := true, text := none, raw := some (.obj [("choices", .arr [])]) } := by
  have h := C7_amended_missing_field
  exact ⟨(h.1 none (.obj []) rfl).trans rfl,
    h.2 (some "k") (.obj [("choices", .arr [])]) rfl rfl⟩

/-- Claim C8: a single-mode request for the OpenAI model while the OpenAI
credential is falsy returns status 200 with the fixed localized placeholder
for OpenAI, makes no network call anywhere, and never errors. -/
theorem C8_single_openai_missing_key (env : Env) (req : FusionRequest)
    (gr orr sr : Except String JsVal) (hk : envTruthy env.openaiKey = false)
    (hmode : req.mode = "single") (hmodel : req.model = "openai") :
    POST env (some req) gr orr sr =
      ({ status := 200, reply := some (.str "لا رد من OpenAI") },
       { geminiCalled := false, openaiCalled := false, synthCalled := false }) := by
  simp [POST, collectPhase, collectStep, callOpenAI, hk, hmode, hmodel,
    rawTruthy, rawFieldTruthy, textHasLen, rawOr, jsOr, jsTruthy]

/-- Witness for C8 at a concrete request with the OpenAI key absent. -/
theorem C8_single_openai_missing_key_witness :
    POST { geminiKey := some "g", openaiKey := none }
        (some { prompt := "p", mode := "single", model := "openai" })
        (.error "x") (.error "x") (.error "x") =
      ({ status := 200, reply := some (.str "لا رد من OpenAI") },
       { geminiCalled := false, openaiCalled := false, synthCalled := false }) :=
  C8_single_openai_missing_key { geminiKey := some "g", openaiKey := none }
    { prompt := "p", mode := "single", model := "openai" }
    (.error "x") (.error "x") (.error "x") rfl rfl rfl

/-- Claim C9: the heuristic merger reads nothing but its two arguments —
identical inputs give byte-identical output across invocations. -/
theorem C9_heuristicMerge_deterministic (g₁ o₁ g₂ o₂ : String)
    (hg : g₁ = g₂) (ho : o₁ = o₂) :
    heuristicMerge g₁ o₁ = heuristicMerge g₂ o₂ := by
  subst hg; subst ho; rfl

/-- Witness for C9 at concrete inputs. -/
theorem C9_heuristicMerge_deterministic_witness :
    heuristicMerge "a" "b" = heuristicMerge "a" "b" :=
  C9_heuristicMerge_deterministic "a" "b" "a" "b" rfl rfl

/-- Claim C10: bare scalar literals JSON-parse, so `"1"`/`"2"` and
`"null"`/`"true"` take the structured-merge path and come back as the
pretty-printed nested document, not any marker or longest-wins output. -/
theorem C10_bare_scalars_structured :
    jsparse "1" = some (.num "1") ∧ jsparse "2" = some (.num "2") ∧
    jsparse "null" = some .null ∧ jsparse "true" = some (.bool true) ∧
    heuristicMerge "1" "2" =
      stringify2 (.obj [("merged", .obj [("gemini", .num "1"), ("openai", .num "2")])]) ∧
    heuristicMerge "null" "true" =
      stringify2 (.obj [("merged", .obj [("gemini", .null), ("openai", .bool true)])]) ∧
    heuristicMerge "1" "2" =
      "\x7b\n  \"merged\": \x7b\n    \"gemini\": 1,\n    \"openai\": 2\n  \x7d\n\x7d" :=
  ⟨rfl, rfl, rfl, rfl, rfl, rfl, rfl⟩

theorem takeDigits_append (ds r : List Char)
    (h1 : ∀ c ∈ ds, c.isDigit = true) (h2 : headDigitFree r = true) :
    takeDigits (ds ++ r) = (ds, r) := by
  induction ds with
  | nil =>
    cases r with
    | nil => rfl
    | cons c t =>
      simp only [headDigitFree, Bool.not_eq_true'] at h2
      simp [takeDigits, h2]
  | cons c ds ih =>
    have hc := h1 c (List.mem_cons_self c ds)
    simp only [List.cons_append, takeDigits, hc, if_true, List.append_eq]
    rw [ih (fun d hd => h1 d (List.mem_cons_of_mem c hd))]

theorem takeDigits_spec (cs : List Char) :
    cs = (takeDigits cs).1 ++ (takeDigits cs).2 ∧
    (∀ c ∈ (takeDigits cs).1, c.isDigit = true) ∧
    headDigitFree (takeDigits cs).2 = true := by
  induction cs with
  | nil => exact ⟨rfl, fun c hc => absurd hc (List.not_mem_nil c), rfl⟩
  | cons c t ih =>
    by_cases hc : c.isDigit = true
    · simp only [takeDigits, hc, if_true]
      refine ⟨?_, ?_, ?_⟩
      · show c :: t = c :: (takeDigits t).1 ++ (takeDigits t).2
        rw [List.cons_append, ← ih.1]
      · show ∀ d ∈ c :: (takeDigits t).1, d.isDigit = true
        intro d hd
        rcases List.mem_cons.mp hd with rfl | hd
        · exact hc
        · exact ih.2.1 d hd
      · show headDigitFree (takeDigits t).2 = true
        exact ih.2.2
    · have hcf : c.isDigit = false := by revert hc; cases c.isDigit <;> simp
      simp only [takeDigits, hcf, Bool.false_eq_true, if_false]
      exact ⟨rfl, by simp, by simp [headDigitFree, hcf]⟩

theorem parseIntPart_emit (ip rest : List Char) (h : IntShape ip)
    (hr : headDigitFree rest = true) :
    parseIntPart (ip ++ rest) = some (ip, rest) := by
  rcases h with h | ⟨c, ds, rfl, hcd, hc0, hds⟩
  · subst h; rfl
  · simp only [List.cons_append, parseIntPart, if_neg hc0, hcd, if_true]
    rw [takeDigits_append ds rest hds hr]

theorem parseIntPart_spec (cs ip r : List Char) (h : parseIntPart cs = some (ip, r)) :
    cs = ip ++ r ∧ IntShape ip := by
  cases cs with
  | nil => exact absurd h (by simp [parseIntPart])
  | cons c t =>
    by_cases hc : c = '0'
    · subst hc
      simp only [parseIntPart, if_pos rfl, Option.some.injEq, Prod.mk.injEq] at h
      obtain ⟨rfl, rfl⟩ := h
      exact ⟨rfl, Or.inl rfl⟩
    · by_cases hd : c.isDigit = true
      · simp only [parseIntPart, if_neg hc, hd, if_true, Option.some.injEq,
          Prod.mk.injEq] at h
        obtain ⟨rfl, rfl⟩ := h
        have hs := takeDigits_spec t
        refine ⟨by simp only [List.cons_append, ← hs.1],
          Or.inr ⟨c, (takeDigits t).1, rfl, hd, hc, hs.2.1⟩⟩
      · simp [parseIntPart, hc, hd] at h

theorem parseFrac_emit (fp rest : List Char) (h : FracShape fp)
    (h1 : headDigitFree rest = true) (h2 : headCharNe rest '.' = true) :
    parseFrac (fp ++ rest) = some (fp, rest) := by
  rcases h with rfl | ⟨ds, rfl, hne, hds⟩
  · cases rest with
    | nil => rfl
    | cons c t =>
      simp only [headCharNe, bne_iff_ne, ne_eq] at h2
      simp [parseFrac, h2]
  · simp only [List.cons_append, parseFrac, if_pos rfl]
    rw [takeDigits_append ds rest hds h1]
    cases ds with
    | nil => exact absurd rfl hne
    | cons d t => rfl

theorem parseFrac_spec (cs fp r : List Char) (h : parseFrac cs = some (fp, r)) :
    cs = fp ++ r ∧ FracShape fp := by
  cases cs with
  | nil =>
    simp only [parseFrac, Option.some.injEq, Prod.mk.injEq] at h
    obtain ⟨rfl, rfl⟩ := h
    exact ⟨rfl, Or.inl rfl⟩
  | cons c t =>
    by_cases hc : c = '.'
    · subst hc
      simp only [parseFrac, if_pos rfl] at h
      have hs := takeDigits_spec t
      rcases htd : takeDigits t with ⟨ds, rest⟩
      rw [htd] at h hs
      cases ds with
      | nil => exact absurd h (by simp)
      | cons d dt =>
        simp only [Option.some.injEq, Prod.mk.injEq] at h
        obtain ⟨rfl, rfl⟩ := h
        exact ⟨by simp only [List.cons_append, ← hs.1],
          Or.inr ⟨d :: dt, rfl, List.cons_ne_nil d dt, hs.2.1⟩⟩
    · simp only [parseFrac, if_neg hc, Option.some.injEq, Prod.mk.injEq] at h
      obtain ⟨rfl, rfl⟩ := h
      exact ⟨rfl, Or.inl rfl⟩

theorem parseExp_emit (ep rest : List Char) (h : ExpShape ep)
    (h1 : headDigitFree rest = true) (h2 : headCharNe rest 'e' = true)
    (h3 : headCharNe rest 'E' = true) :
    parseExp (ep ++ rest) = some (ep, rest) := by
  rcases h with rfl | ⟨e, sgn, ds, rfl, he, hsgn, hne, hds⟩
  · cases rest with
    | nil => rfl
    | cons c t =>
      simp only [headCharNe, bne_iff_ne, ne_eq] at h2 h3
      have : ¬(c = 'e' ∨ c = 'E') := by
        rintro (rfl | rfl)
        · exact h2 rfl
        · exact h3 rfl
      simp [parseExp, this]
  · have hee : (e = 'e' ∨ e = 'E') := he
    obtain ⟨d, dt, rfl⟩ : ∃ d dt, ds = d :: dt := by
      cases ds with
      | nil => exact absurd rfl hne
      | cons d dt => exact ⟨d, dt, rfl⟩
    have hdd : d.isDigit = true := hds d (List.mem_cons_self d dt)
    have hdplus : ¬(d = '+' ∨ d = '-') := by
      rintro (rfl | rfl) <;> simp at hdd
    rcases hsgn with rfl | rfl | rfl
    · simp only [List.nil_append, List.cons_append, parseExp, if_pos hee, if_neg hdplus]
      rw [show d :: (dt ++ rest) = (d :: dt) ++ rest from rfl,
        takeDigits_append (d :: dt) rest hds h1]
    · simp only [List.cons_append, List.singleton_append, List.nil_append, parseExp,
        if_pos hee, true_or, or_true, if_true]
      rw [show d :: (dt ++ rest) = (d :: dt) ++ rest from rfl,
        takeDigits_append (d :: dt) rest hds h1]
    · simp only [List.cons_append, List.singleton_append, List.nil_append, parseExp,
        if_pos hee, true_or, or_true, if_true]
      rw [show d :: (dt ++ rest) = (d :: dt) ++ rest from rfl,
        takeDigits_append (d :: dt) rest hds h1]

theorem parseExp_spec (cs ep r : List Char) (h : parseExp cs = some (ep, r)) :
    cs = ep ++ r ∧ ExpShape ep := by
  cases cs with
  | nil =>
    simp only [parseExp, Option.some.injEq, Prod.mk.injEq] at h
    obtain ⟨rfl, rfl⟩ := h
    exact ⟨rfl, Or.inl rfl⟩
  | cons c t =>
    by_cases hc : c = 'e' ∨ c = 'E'
    · simp only [parseExp, if_pos hc] at h
      cases t with
      | nil => exact absurd h (by simp)
      | cons s t' =>
        by_cases hs : s = '+' ∨ s = '-'
        · simp only [if_pos hs] at h
          have hspec := takeDigits_spec t'
          rcases htd : takeDigits t' with ⟨ds, rest⟩
          rw [htd] at h hspec
          cases ds with
          | nil => exact absurd h (by simp)
          | cons d dt =>
            simp only [Option.some.injEq, Prod.mk.injEq] at h
            obtain ⟨rfl, rfl⟩ := h
            constructor
            · simp only [List.cons_append, ← hspec.1]
            · refine Or.inr ⟨c, [s], d :: dt, by simp, hc, ?_, List.cons_ne_nil d dt, hspec.2.1⟩
              rcases hs with rfl | rfl
              · exact Or.inr (Or.inl rfl)
              · exact Or.inr (Or.inr rfl)
        · simp only [if_neg hs] at h
          have hspec := takeDigits_spec (s :: t')
          rcases htd : takeDigits (s :: t') with ⟨ds, rest⟩
          rw [htd] at h hspec
          cases ds with
          | nil => exact absurd h (by simp)
          | cons d dt =>
            simp only [Option.some.injEq, Prod.mk.injEq] at h
            obtain ⟨rfl, rfl⟩ := h
            constructor
            · simp only [List.cons_append, ← hspec.1]
            · exact Or.inr ⟨c, [], d :: dt, by simp, hc, Or.inl rfl,
                List.cons_ne_nil d dt, hspec.2.1⟩
    · simp only [parseExp, if_neg hc, Option.some.injEq, Prod.mk.injEq] at h
      obtain ⟨rfl, rfl⟩ := h
      exact ⟨rfl, Or.inl rfl⟩

theorem parseNum_cons_minus (t : List Char) :
    parseNum ('-' :: t) =
      (match parseIntPart t with
       | none => none
       | some (ip, cs2) =>
         match parseFrac cs2 with
         | none => none
         | some (fp, cs3) =>
           match parseExp cs3 with
           | none => none
           | some (ep, cs4) => some (⟨'-' :: (ip ++ fp ++ ep)⟩, cs4)) := rfl

theorem parseNum_cons_other (c : Char) (t : List Char) (hc : ¬c = '-') :
    parseNum (c :: t) =
      (match parseIntPart (c :: t) with
       | none => none
       | some (ip, cs2) =>
         match parseFrac cs2 with
         | none => none
         | some (fp, cs3) =>
           match parseExp cs3 with
           | none => none
           | some (ep, cs4) => some (⟨ip ++ fp ++ ep⟩, cs4)) := by
  simp only [parseNum, if_neg hc]
  rfl

theorem numBoundaryB_facts (rest : List Char) (h : numBoundaryB rest = true) :
    headDigitFree rest = true ∧ headCharNe rest '.' = true ∧
    headCharNe rest 'e' = true ∧ headCharNe rest 'E' = true := by
  cases rest with
  | nil => exact ⟨rfl, rfl, rfl, rfl⟩
  | cons c t =>
    simp only [numBoundaryB, Bool.and_eq_true] at h
    exact ⟨by simp [headDigitFree, h.1.1.1], by simp [headCharNe, h.1.1.2],
      by simp [headCharNe, h.1.2], by simp [headCharNe, h.2]⟩

theorem headDigitFree_expRest (ep rest : List Char) (hep : ExpShape ep)
    (hr : headDigitFree rest = true) : headDigitFree (ep ++ rest) = true := by
  rcases hep with rfl | ⟨e, sgn, ds, rfl, he, _, _, _⟩
  · simpa using hr
  · rcases he with rfl | rfl <;> rfl

theorem headCharNe_expRest (ep rest : List Char) (hep : ExpShape ep)
    (hr : headCharNe rest '.' = true) : headCharNe (ep ++ rest) '.' = true := by
  rcases hep with rfl | ⟨e, sgn, ds, rfl, he, _, _, _⟩
  · simpa using hr
  · rcases he with rfl | rfl <;> rfl

theorem headDigitFree_fracRest (fp rest : List Char) (hfp : FracShape fp)
    (hr : headDigitFree rest = true) : headDigitFree (fp ++ rest) = true := by
  rcases hfp with rfl | ⟨ds, rfl, _, _⟩
  · simpa using hr
  · rfl

theorem parseNum_emit (sign ip fp ep rest : List Char)
    (hs : sign = [] ∨ sign = ['-']) (hip : IntShape ip) (hfp : FracShape fp)
    (hep : ExpShape ep) (hrest : numBoundaryB rest = true) :
    parseNum (sign ++ (ip ++ (fp ++ (ep ++ rest)))) =
      some (⟨sign ++ (ip ++ (fp ++ ep))⟩, rest) := by
  obtain ⟨hb1, hb2, hb3, hb4⟩ := numBoundaryB_facts rest hrest
  have hir : headDigitFree (fp ++ (ep ++ rest)) = true :=
    headDigitFree_fracRest fp (ep ++ rest) hfp (headDigitFree_expRest ep rest hep hb1)
  have hipart := parseIntPart_emit ip (fp ++ (ep ++ rest)) hip hir
  have hfpart := parseFrac_emit fp (ep ++ rest) hfp
    (headDigitFree_expRest ep rest hep hb1) (headCharNe_expRest ep rest hep hb2)
  have hepart := parseExp_emit ep rest hep hb1 hb3 hb4
  obtain ⟨c0, ipt, hipc, hc0d⟩ : ∃ c0 ipt, ip = c0 :: ipt ∧ c0.isDigit = true := by
    rcases hip with rfl | ⟨c, ds, rfl, hcd, _, _⟩
    · exact ⟨'0', [], rfl, rfl⟩
    · exact ⟨c, ds, rfl, hcd⟩
  have hc0m : ¬(c0 = '-') := by
    intro e; subst e; exact absurd hc0d (by decide)
  rcases hs with rfl | rfl
  · rw [List.nil_append, hipc, List.cons_append,
      parseNum_cons_other c0 (ipt ++ (fp ++ (ep ++ rest))) hc0m,
      show c0 :: (ipt ++ (fp ++ (ep ++ rest))) = (c0 :: ipt) ++ (fp ++ (ep ++ rest))
        from rfl, ← hipc]
    simp only [hipart, hfpart, hepart]
    simp [List.append_assoc]
  · rw [show ['-'] ++ (ip ++ (fp ++ (ep ++ rest))) = '-' :: (ip ++ (fp ++ (ep ++ rest)))
      from rfl, parseNum_cons_minus]
    simp only [hipart, hfpart, hepart]
    simp [List.append_assoc]

theorem parseNum_spec (cs : List Char) (lex : String) (rest : List Char)
    (h : parseNum cs = some (lex, rest)) :
    ∃ sign ip fp ep, (sign = [] ∨ sign = ['-']) ∧ IntShape ip ∧ FracShape fp ∧
      ExpShape ep ∧ lex.data = sign ++ (ip ++ (fp ++ ep)) ∧
      cs = sign ++ (ip ++ (fp ++ (ep ++ rest))) := by
  cases cs with
  | nil => exact absurd h (by simp [parseNum, parseIntPart])
  | cons c t =>
    by_cases hc : c = '-'
    · subst hc
      rw [parseNum_cons_minus] at h
      split at h
      · exact absurd h (by simp)
      · rename_i ip cs2 hip
        split at h
        · exact absurd h (by simp)
        · rename_i fp cs3 hfp
          split at h
          · exact absurd h (by simp)
          · rename_i ep cs4 hep
            simp only [Option.some.injEq, Prod.mk.injEq] at h
            obtain ⟨rfl, rfl⟩ := h
            obtain ⟨ht, hips⟩ := parseIntPart_spec t ip cs2 hip
            obtain ⟨hc2, hfps⟩ := parseFrac_spec cs2 fp cs3 hfp
            obtain ⟨hc3, heps⟩ := parseExp_spec cs3 ep cs4 hep
            refine ⟨['-'], ip, fp, ep, Or.inr rfl, hips, hfps, heps, ?_, ?_⟩
            · simp [List.append_assoc]
            · subst hc3 hc2 ht
              simp [List.append_assoc]
    · rw [parseNum_cons_other c t hc] at h
      split at h
      · exact absurd h (by simp)
      · rename_i ip cs2 hip
        split at h
        · exact absurd h (by simp)
        · rename_i fp cs3 hfp
          split at h
          · exact absurd h (by simp)
          · rename_i ep cs4 hep
            simp only [Option.some.injEq, Prod.mk.injEq] at h
            obtain ⟨rfl, rfl⟩ := h
            obtain ⟨ht, hips⟩ := parseIntPart_spec (c :: t) ip cs2 hip
            obtain ⟨hc2, hfps⟩ := parseFrac_spec cs2 fp cs3 hfp
            obtain ⟨hc3, heps⟩ := parseExp_spec cs3 ep cs4 hep
            refine ⟨[], ip, fp, ep, Or.inl rfl, hips, hfps, heps, ?_, ?_⟩
            · simp [List.append_assoc]
            · rw [List.nil_append, ht, hc2, hc3]
              try simp [List.append_assoc]

theorem parseNum_self (cs : List Char) (lex : String) (rest : List Char)
    (h : parseNum cs = some (lex, rest)) : parseNum lex.data = some (lex, []) := by
  obtain ⟨sign, ip, fp, ep, hs, hip, hfp, hep, hlex, hcs⟩ := parseNum_spec cs lex rest h
  have he := parseNum_emit sign ip fp ep [] hs hip hfp hep rfl
  rw [List.append_nil] at he
  rw [hlex, he]
  have hlexeq : lex = ⟨sign ++ (ip ++ (fp ++ ep))⟩ := by
    cases lex with
    | mk d => exact congrArg String.mk hlex
  rw [← hlexeq]

theorem parseNum_head (cs : List Char) (lex : String) (rest : List Char)
    (h : parseNum cs = some (lex, rest)) :
    ∃ c t, lex.data = c :: t ∧ (c = '-' ∨ c.isDigit = true) := by
  obtain ⟨sign, ip, fp, ep, hs, hip, hfp, hep, hlex, hcs⟩ := parseNum_spec cs lex rest h
  rcases hs with rfl | rfl
  · rw [List.nil_append] at hlex
    rcases hip with rfl | ⟨c, ds, rfl, hcd, _, _⟩
    · exact ⟨'0', _, hlex, Or.inr rfl⟩
    · exact ⟨c, _, hlex, Or.inr hcd⟩
  · exact ⟨'-', _, hlex, Or.inl rfl⟩

theorem hexVal_digitChar (k : Nat) (h : k < 16) : hexVal (Nat.digitChar k) = some k := by
  interval_cases k <;> rfl

theorem parseStrChars_cons_quote (rest : List Char) :
    parseStrChars ('"' :: rest) = some ([], rest) := by
  rw [parseStrChars.eq_def]
  rfl

theorem parseStrChars_esc (e de : Char) (E : List Char)
    (h : (e, de) = ('"', '"') ∨ (e, de) = ('\\', '\\') ∨ (e, de) = ('/', '/') ∨
      (e, de) = ('b', '\x08') ∨ (e, de) = ('f', '\x0c') ∨ (e, de) = ('n', '\n') ∨
      (e, de) = ('r', '\r') ∨ (e, de) = ('t', '\t')) :
    parseStrChars ('\\' :: e :: E) =
      (parseStrChars E).map (fun p => (de :: p.1, p.2)) := by
  rw [parseStrChars.eq_def]
  rcases h with h | h | h | h | h | h | h | h <;>
    (injection h with h1 h2; subst h1; subst h2; rfl)

theorem parseStrChars_u (x y : Nat) (hx16 : x < 16) (hy16 : y < 16) (E : List Char) :
    parseStrChars ('\\' :: 'u' :: '0' :: '0' ::
        Nat.digitChar x :: Nat.digitChar y :: E) =
      (parseStrChars E).map (fun p => (Char.ofNat (x * 16 + y) :: p.1, p.2)) := by
  rw [parseStrChars.eq_def]
  show (match hexVal '0', hexVal '0', hexVal (Nat.digitChar x),
      hexVal (Nat.digitChar y) with
    | some a, some b, some z, some w =>
      (parseStrChars E).map
        (fun p : List Char × List Char =>
          (Char.ofNat (((a * 16 + b) * 16 + z) * 16 + w) :: p.1, p.2))
    | _, _, _, _ => none) = _
  rw [hexVal_digitChar x hx16, hexVal_digitChar y hy16]
  show (parseStrChars E).map
      (fun p => (Char.ofNat (((0 * 16 + 0) * 16 + x) * 16 + y) :: p.1, p.2)) = _
  simp only [show ∀ z w : Nat, ((0 * 16 + 0) * 16 + z) * 16 + w = z * 16 + w from by
    intro z w; omega]

theorem parseStrChars_plain (c : Char) (E : List Char) (h1 : ¬c = '"')
    (h2 : ¬c = '\\') (h3 : ¬c.toNat < 32) :
    parseStrChars (c :: E) = (parseStrChars E).map (fun p => (c :: p.1, p.2)) := by
  rw [parseStrChars.eq_def]
  simp only [if_neg h1, if_neg h2, if_neg h3]

theorem parseStr_escape (l rest : List Char) :
    parseStrChars (escList l ++ ('"' :: rest)) = some (l, rest) := by
  induction l with
  | nil => exact parseStrChars_cons_quote rest
  | cons c t ih =>
    show parseStrChars ((escChar c ++ escList t) ++ ('"' :: rest)) = _
    rw [List.append_assoc]
    by_cases h1 : c = '"'
    · subst h1
      rw [show escChar '"' = ['\\', '"'] from rfl, List.cons_append, List.cons_append,
        List.nil_append, parseStrChars_esc '"' '"' _ (Or.inl rfl), ih, Option.map_some']
    · by_cases h2 : c = '\\'
      · subst h2
        rw [show escChar '\\' = ['\\', '\\'] from rfl, List.cons_append,
          List.cons_append, List.nil_append,
          parseStrChars_esc '\\' '\\' _ (Or.inr (Or.inl rfl)), ih, Option.map_some']
      · by_cases h3 : c = '\x08'
        · subst h3
          rw [show escChar '\x08' = ['\\', 'b'] from rfl, List.cons_append,
            List.cons_append, List.nil_append,
            parseStrChars_esc 'b' '\x08' _
              (Or.inr (Or.inr (Or.inr (Or.inl rfl)))), ih, Option.map_some']
        · by_cases h4 : c = '\t'
          · subst h4
            rw [show escChar '\t' = ['\\', 't'] from rfl, List.cons_append,
              List.cons_append, List.nil_append,
              parseStrChars_esc 't' '\t' _
                (Or.inr (Or.inr (Or.inr (Or.inr (Or.inr (Or.inr (Or.inr rfl))))))), ih, Option.map_some']
          · by_cases h5 : c = '\n'
            · subst h5
              rw [show escChar '\n' = ['\\', 'n'] from rfl, List.cons_append,
                List.cons_append, List.nil_append,
                parseStrChars_esc 'n' '\n' _
                  (Or.inr (Or.inr (Or.inr (Or.inr (Or.inr (Or.inl rfl)))))), ih, Option.map_some']
            · by_cases h6 : c = '\x0c'
              · subst h6
                rw [show escChar '\x0c' = ['\\', 'f'] from rfl, List.cons_append,
                  List.cons_append, List.nil_append,
                  parseStrChars_esc 'f' '\x0c' _
                    (Or.inr (Or.inr (Or.inr (Or.inr (Or.inl rfl))))), ih, Option.map_some']
              · by_cases h7 : c = '\r'
                · subst h7
                  rw [show escChar '\r' = ['\\', 'r'] from rfl, List.cons_append,
                    List.cons_append, List.nil_append,
                    parseStrChars_esc 'r' '\r' _
                      (Or.inr (Or.inr (Or.inr (Or.inr (Or.inr (Or.inr (Or.inl rfl))))))),
                    ih, Option.map_some']
                · by_cases h8 : c.toNat < 32
                  · rw [show escChar c =
                        ['\\', 'u', '0', '0', Nat.digitChar (c.toNat / 16),
                          Nat.digitChar (c.toNat % 16)] from by
                        simp only [escChar, if_neg h1, if_neg h2, if_neg h3, if_neg h4,
                          if_neg h5, if_neg h6, if_neg h7, if_pos h8],
                      List.cons_append, List.cons_append, List.cons_append,
                      List.cons_append, List.cons_append, List.cons_append,
                      List.nil_append,
                      parseStrChars_u (c.toNat / 16) (c.toNat % 16) (by omega) (by omega),
                      ih]
                    show some (Char.ofNat (c.toNat / 16 * 16 + c.toNat % 16) :: t, rest) = _
                    rw [show c.toNat / 16 * 16 + c.toNat % 16 = c.toNat from by omega,
                      Char.ofNat_toNat]
                  · rw [show escChar c = [c] from by
                        simp only [escChar, if_neg h1, if_neg h2, if_neg h3, if_neg h4,
                          if_neg h5, if_neg h6, if_neg h7, if_neg h8],
                      List.cons_append, List.nil_append,
                      parseStrChars_plain c _ h1 h2 h8, ih, Option.map_some']

theorem skipWs_cons_not (c : Char) (r : List Char) (h : isJsonWs c = false) :
    skipWs (c :: r) = c :: r := by
  simp [skipWs, h]

theorem skipWs_ws (c : Char) (r : List Char) (h : isJsonWs c = true) :
    skipWs (c :: r) = skipWs r := by
  simp [skipWs, h]

theorem skipWs_replicate (k : Nat) (r : List Char) :
    skipWs (List.replicate k ' ' ++ r) = skipWs r := by
  induction k with
  | zero => rfl
  | succ n ih =>
    rw [List.replicate_succ, List.cons_append, skipWs_ws ' ' _ rfl, ih]

theorem skipWs_indent (n : Nat) (r : List Char) :
    skipWs (indentSp n ++ r) = skipWs r :=
  skipWs_replicate (2 * n) r

theorem skipWs_idem (cs : List Char) : skipWs (skipWs cs) = skipWs cs := by
  induction cs with
  | nil => rfl
  | cons c t ih =>
    by_cases h : isJsonWs c = true
    · rw [skipWs_ws c t h, ih]
    · have hf : isJsonWs c = false := by revert h; cases isJsonWs c <;> simp
      rw [skipWs_cons_not c t hf, skipWs_cons_not c t hf]

theorem hasKeyB_eq_false (kvs : List (String × JsVal)) (k : String)
    (h : hasKeyB kvs k = false) : ∀ p ∈ kvs, p.1 ≠ k := by
  intro p hp he
  have : kvs.any (fun q => q.1 == k) = true :=
    List.any_eq_true.mpr ⟨p, hp, by simp [he]⟩
  rw [hasKeyB] at h
  rw [this] at h
  exact absurd h (by simp)

theorem hasKeyB_append (acc : List (String × JsVal)) (x : String × JsVal) (k : String) :
    hasKeyB (acc ++ [x]) k = (hasKeyB acc k || x.1 == k) := by
  simp [hasKeyB, List.any_append]

theorem insertKey_notMem (kvs : List (String × JsVal)) (k : String) (v : JsVal)
    (h : hasKeyB kvs k = false) : insertKey kvs k v = kvs ++ [(k, v)] := by
  induction kvs with
  | nil => rfl
  | cons p t ih =>
    obtain ⟨k', v'⟩ := p
    have hne : k' ≠ k := hasKeyB_eq_false ((k', v') :: t) k h (k', v')
      (List.mem_cons_self _ _)
    have ht : hasKeyB t k = false := by
      simp only [hasKeyB, List.any_cons, Bool.or_eq_false_iff] at h
      exact h.2
    simp only [insertKey, if_neg hne, ih ht, List.cons_append]

theorem foldl_insertKey_append (kvs acc : List (String × JsVal))
    (hd : ∀ p ∈ kvs, hasKeyB acc p.1 = false) (hwf : wfMembers kvs = true) :
    List.foldl (fun a p => insertKey a p.1 p.2) acc kvs = acc ++ kvs := by
  induction kvs generalizing acc with
  | nil => simp
  | cons p t ih =>
    obtain ⟨k, v⟩ := p
    simp only [wfMembers, Bool.and_eq_true, Bool.not_eq_true'] at hwf
    simp only [List.foldl_cons]
    rw [insertKey_notMem acc k v (hd (k, v) (List.mem_cons_self _ _))]
    rw [ih (acc ++ [(k, v)]) ?_ ?_]
    · simp
    · intro p hp
      rw [hasKeyB_append]
      have h1 : hasKeyB acc p.1 = false := hd p (List.mem_cons_of_mem _ hp)
      have h2 : p.1 ≠ k := hasKeyB_eq_false t k hwf.1.1 p hp
      simp [h1, Ne.symm h2]
    · exact hwf.2

theorem buildObj_self (kvs : List (String × JsVal)) (h : wfMembers kvs = true) :
    buildObj kvs = kvs := by
  have := foldl_insertKey_append kvs [] (fun p _ => rfl) h
  simpa [buildObj] using this

theorem hasKeyB_insertKey (kvs : List (String × JsVal)) (k : String) (v : JsVal)
    (k' : String) :
    hasKeyB (insertKey kvs k v) k' = (hasKeyB kvs k' || k == k') := by
  induction kvs with
  | nil => simp [insertKey, hasKeyB]
  | cons p t ih =>
    obtain ⟨k0, v0⟩ := p
    by_cases h : k0 = k
    · subst h
      simp only [insertKey, if_pos rfl]
      cases hk : (k0 == k') <;>
        cases ha : t.any (fun q => q.1 == k') <;>
          simp [hasKeyB, List.any_cons, hk, ha]
    · simp only [insertKey, if_neg h]
      simp only [hasKeyB, List.any_cons] at *
      rw [ih]
      cases (k0 == k') <;> cases (t.any fun q => q.1 == k') <;> cases (k == k') <;> simp

theorem wfMembers_insertKey (kvs : List (String × JsVal)) (k : String) (v : JsVal)
    (h1 : wfMembers kvs = true) (h2 : wfVal v = true) :
    wfMembers (insertKey kvs k v) = true := by
  induction kvs with
  | nil => simp [insertKey, wfMembers, hasKeyB, h2]
  | cons p t ih =>
    obtain ⟨k0, v0⟩ := p
    simp only [wfMembers, Bool.and_eq_true, Bool.not_eq_true'] at h1
    by_cases h : k0 = k
    · subst h
      simp only [insertKey, if_pos rfl]
      simp only [wfMembers, Bool.and_eq_true, Bool.not_eq_true']
      exact ⟨⟨h1.1.1, h2⟩, h1.2⟩
    · simp only [insertKey, if_neg h]
      simp only [wfMembers, Bool.and_eq_true, Bool.not_eq_true']
      refine ⟨⟨?_, h1.1.2⟩, ih h1.2⟩
      rw [hasKeyB_insertKey]
      have hne : (k == k0) = false := by
        simp only [beq_eq_false_iff_ne, ne_eq]
        exact fun he => h he.symm
      simp [h1.1.1, hne]

theorem wf_foldl_insertKey (ms acc : List (String × JsVal))
    (hacc : wfMembers acc = true) (h : ∀ p ∈ ms, wfVal p.2 = true) :
    wfMembers (List.foldl (fun a p => insertKey a p.1 p.2) acc ms) = true := by
  induction ms generalizing acc with
  | nil => simpa
  | cons p t ih =>
    simp only [List.foldl_cons]
    exact ih (insertKey acc p.1 p.2)
      (wfMembers_insertKey acc p.1 p.2 hacc (h p (List.mem_cons_self _ _)))
      (fun q hq => h q (List.mem_cons_of_mem _ hq))

theorem wf_buildObj (ms : List (String × JsVal)) (h : ∀ p ∈ ms, wfVal p.2 = true) :
    wfMembers (buildObj ms) = true :=
  wf_foldl_insertKey ms [] rfl h

theorem parse_wf (fuel : Nat) :
    (∀ cs v rest, parseVal fuel cs = some (v, rest) → wfVal v = true) ∧
    (∀ cs vs rest, parseElems fuel cs = some (vs, rest) → wfList vs = true) ∧
    (∀ cs ms rest, parseMembers fuel cs = some (ms, rest) →
      ∀ p ∈ ms, wfVal p.2 = true) := by
  induction fuel with
  | zero =>
    exact ⟨fun cs v rest h => Option.noConfusion h,
      fun cs vs rest h => Option.noConfusion h,
      fun cs ms rest h => Option.noConfusion h⟩
  | succ n ih =>
    obtain ⟨ihv, ihe, ihm⟩ := ih
    refine ⟨?_, ?_, ?_⟩
    · intro cs v rest h
      simp only [parseVal] at h
      split at h
      · exact Option.noConfusion h
      · split_ifs at h with hn ht hf hq hbr hbc
        · split at h
          · simp only [Option.some.injEq, Prod.mk.injEq] at h
            obtain ⟨rfl, rfl⟩ := h
            rfl
          · exact Option.noConfusion h
        · split at h
          · simp only [Option.some.injEq, Prod.mk.injEq] at h
            obtain ⟨rfl, rfl⟩ := h
            rfl
          · exact Option.noConfusion h
        · split at h
          · simp only [Option.some.injEq, Prod.mk.injEq] at h
            obtain ⟨rfl, rfl⟩ := h
            rfl
          · exact Option.noConfusion h
        · split at h
          · rename_i s r hstr
            simp only [Option.some.injEq, Prod.mk.injEq] at h
            obtain ⟨rfl, rfl⟩ := h
            rfl
          · exact Option.noConfusion h
        · split at h
          · exact Option.noConfusion h
          · rename_i c2 r2
            split_ifs at h with hcb
            · simp only [Option.some.injEq, Prod.mk.injEq] at h
              obtain ⟨rfl, rfl⟩ := h
              rfl
            · split at h
              · rename_i vs r helems
                simp only [Option.some.injEq, Prod.mk.injEq] at h
                obtain ⟨rfl, rfl⟩ := h
                exact ihe _ _ _ helems
              · exact Option.noConfusion h
        · split at h
          · exact Option.noConfusion h
          · rename_i c2 r2
            split_ifs at h with hcb
            · simp only [Option.some.injEq, Prod.mk.injEq] at h
              obtain ⟨rfl, rfl⟩ := h
              rfl
            · split at h
              · rename_i ms r hmem
                simp only [Option.some.injEq, Prod.mk.injEq] at h
                obtain ⟨rfl, rfl⟩ := h
                exact wf_buildObj ms (ihm _ _ _ hmem)
              · exact Option.noConfusion h
        · split at h
          · rename_i lex r hnum
            simp only [Option.some.injEq, Prod.mk.injEq] at h
            obtain ⟨rfl, rfl⟩ := h
            exact decide_eq_true (parseNum_self _ _ _ hnum)
          · exact Option.noConfusion h
    · intro cs vs rest h
      simp only [parseElems] at h
      split at h
      · exact Option.noConfusion h
      · rename_i v r hval
        split at h
        · exact Option.noConfusion h
        · rename_i c2 r2
          split_ifs at h with hcomma hclose
          · split at h
            · rename_i vs2 r3 helems
              simp only [Option.some.injEq, Prod.mk.injEq] at h
              obtain ⟨rfl, rfl⟩ := h
              simp only [wfList, Bool.and_eq_true]
              exact ⟨ihv _ _ _ hval, ihe _ _ _ helems⟩
            · exact Option.noConfusion h
          · simp only [Option.some.injEq, Prod.mk.injEq] at h
            obtain ⟨rfl, rfl⟩ := h
            simp only [wfList, Bool.and_eq_true]
            exact ⟨ihv _ _ _ hval, trivial⟩
    · intro cs ms rest h
      simp only [parseMembers] at h
      split at h
      · exact Option.noConfusion h
      · split_ifs at h with hq
        · split at h
          · exact Option.noConfusion h
          · rename_i k r hstr
            split at h
            · exact Option.noConfusion h
            · rename_i c1 r2
              split_ifs at h with hcolon
              · split at h
                · exact Option.noConfusion h
                · rename_i v r3 hval
                  split at h
                  · exact Option.noConfusion h
                  · rename_i c2 r4
                    split_ifs at h with hcomma hclose
                    · split at h
                      · rename_i ms2 r5 hmem
                        simp only [Option.some.injEq, Prod.mk.injEq] at h
                        obtain ⟨rfl, rfl⟩ := h
                        intro p hp
                        rcases List.mem_cons.mp hp with rfl | hp2
                        · exact ihv _ _ _ hval
                        · exact ihm _ _ _ hmem p hp2
                      · exact Option.noConfusion h
                    · simp only [Option.some.injEq, Prod.mk.injEq] at h
                      obtain ⟨rfl, rfl⟩ := h
                      intro p hp
                      rcases List.mem_cons.mp hp with rfl | hp2
                      · exact ihv _ _ _ hval
                      · exact absurd hp2 (List.not_mem_nil p)

theorem jsparse_wf (s : String) (v : JsVal) (h : jsparse s = some v) :
    wfVal v = true := by
  unfold jsparse at h
  split at h
  · rename_i v2 rest hpv
    split_ifs at h
    simp only [Option.some.injEq] at h
    subst h
    exact (parse_wf _).1 _ _ _ hpv
  · exact Option.noConfusion h

theorem numHead_facts (c : Char) (h : c = '-' ∨ c.isDigit = true) :
    isJsonWs c = false ∧ ¬c = 'n' ∧ ¬c = 't' ∧ ¬c = 'f' ∧ ¬c = '"' ∧ ¬c = '[' ∧
    ¬c = '{' ∧ ¬c = ']' ∧ ¬c = '}' ∧ ¬c = ',' := by
  rcases h with rfl | h
  · exact ⟨rfl, by decide, by decide, by decide, by decide, by decide, by decide,
      by decide, by decide, by decide⟩
  · have hne : ∀ d : Char, d.isDigit = false → ¬c = d := by
      intro d hd he
      subst he
      rw [h] at hd
      exact Bool.noConfusion hd
    refine ⟨?_, hne 'n' rfl, hne 't' rfl, hne 'f' rfl, hne '"' rfl, hne '[' rfl,
      hne '{' rfl, hne ']' rfl, hne '}' rfl, hne ',' rfl⟩
    by_cases hw : isJsonWs c = true
    · simp only [isJsonWs, Bool.or_eq_true, decide_eq_true_eq] at hw
      rcases hw with ((rfl | rfl) | rfl) | rfl <;> exact absurd h (by decide)
    · revert hw
      cases isJsonWs c <;> simp

theorem renderP_shape (lvl : Nat) (v : JsVal) (h : wfVal v = true) :
    ∃ c t, renderP lvl v = c :: t ∧ isJsonWs c = false ∧ ¬c = ']' ∧ ¬c = '}' ∧
      ¬c = ',' := by
  cases v with
  | null => exact ⟨'n', _, rfl, rfl, by decide, by decide, by decide⟩
  | bool b =>
    cases b
    · exact ⟨'f', _, rfl, rfl, by decide, by decide, by decide⟩
    · exact ⟨'t', _, rfl, rfl, by decide, by decide, by decide⟩
  | num lex =>
    have hok : parseNum lex.data = some (lex, []) := of_decide_eq_true h
    obtain ⟨c, t, hdata, hcd⟩ := parseNum_head lex.data lex [] hok
    obtain ⟨f1, _, _, _, _, _, _, f8, f9, f10⟩ := numHead_facts c hcd
    exact ⟨c, t, hdata, f1, f8, f9, f10⟩
  | str s => exact ⟨'"', _, rfl, rfl, by decide, by decide, by decide⟩
  | arr xs =>
    cases xs with
    | nil => exact ⟨'[', _, rfl, rfl, by decide, by decide, by decide⟩
    | cons x t => exact ⟨'[', _, rfl, rfl, by decide, by decide, by decide⟩
  | obj kvs =>
    cases kvs with
    | nil => exact ⟨'{', _, rfl, rfl, by decide, by decide, by decide⟩
    | cons kv t => exact ⟨'{', _, rfl, rfl, by decide, by decide, by decide⟩

theorem skipWs_renderP (lvl : Nat) (v : JsVal) (h : wfVal v = true) (rest : List Char) :
    skipWs (renderP lvl v ++ rest) = renderP lvl v ++ rest := by
  obtain ⟨c, t, hct, hws, _, _, _⟩ := renderP_shape lvl v h
  rw [hct, List.cons_append, skipWs_cons_not c _ hws]

theorem FvVal_pos (v : JsVal) : 1 ≤ FvVal v := by
  cases v <;> simp [FvVal]

theorem FvList_pos (xs : List JsVal) : 1 ≤ FvList xs := by
  cases xs <;> simp [FvList] <;> omega

theorem FvMembers_pos (kvs : List (String × JsVal)) : 1 ≤ FvMembers kvs := by
  cases kvs with
  | nil => simp [FvMembers]
  | cons kv t =>
    obtain ⟨k, v⟩ := kv
    simp only [FvMembers]
    omega

theorem numBoundaryB_elemsCtx (lvl : Nat) (xs : List JsVal) (W : List Char) :
    numBoundaryB (renderElemsP lvl xs ++ '\n' :: W) = true := by
  cases xs <;> rfl

theorem numBoundaryB_membersCtx (lvl : Nat) (kvs : List (String × JsVal))
    (W : List Char) :
    numBoundaryB (renderMembersP lvl kvs ++ '\n' :: W) = true := by
  cases kvs <;> rfl

theorem parseVal_skipWs (fuel : Nat) (cs : List Char) :
    parseVal fuel (skipWs cs) = parseVal fuel cs := by
  cases fuel with
  | zero => rfl
  | succ n => simp only [parseVal, skipWs_idem]

theorem parseElems_skipWs (fuel : Nat) (cs : List Char) :
    parseElems fuel (skipWs cs) = parseElems fuel cs := by
  cases fuel with
  | zero => rfl
  | succ n => simp only [parseElems, parseVal_skipWs]

theorem parseMembers_skipWs (fuel : Nat) (cs : List Char) :
    parseMembers fuel (skipWs cs) = parseMembers fuel cs := by
  cases fuel with
  | zero => rfl
  | succ n => simp only [parseMembers, skipWs_idem]

set_option maxHeartbeats 1000000 in
theorem render_roundtrip (fuel : Nat) :
    (∀ v lvl rest, wfVal v = true → FvVal v ≤ fuel → numBoundaryB rest = true →
      parseVal fuel (renderP lvl v ++ rest) = some (v, rest)) ∧
    (∀ x xs lvl m rest, wfVal x = true → wfList xs = true →
      FvList (x :: xs) ≤ fuel →
      parseElems fuel (renderP lvl x ++ (renderElemsP lvl xs ++
        '\n' :: (indentSp m ++ ']' :: rest))) = some (x :: xs, rest)) ∧
    (∀ k v kvs lvl m rest, wfMembers ((k, v) :: kvs) = true →
      FvMembers ((k, v) :: kvs) ≤ fuel →
      parseMembers fuel (renderMemberP lvl (k, v) ++ (renderMembersP lvl kvs ++
        '\n' :: (indentSp m ++ '}' :: rest))) = some ((k, v) :: kvs, rest)) := by
  induction fuel with
  | zero =>
    refine ⟨fun v lvl rest hwf hfv hb => ?_, fun x xs lvl m rest h1 h2 hfl => ?_,
      fun k v kvs lvl m rest hwm hfm => ?_⟩
    · exact absurd hfv (by have := FvVal_pos v; omega)
    · exact absurd hfl (by have := FvVal_pos x; have := FvList_pos xs; simp only [FvList]; omega)
    · refine absurd hfm ?_
      have h1 := FvVal_pos v
      have h2 := FvMembers_pos kvs
      simp only [FvMembers]
      omega
  | succ n ih =>
    obtain ⟨ihv, ihe, ihm⟩ := ih
    refine ⟨?_, ?_, ?_⟩
    · intro v lvl rest hwf hfv hb
      cases v with
      | null => rfl
      | bool b => cases b <;> rfl
      | str s =>
        have hl : renderP lvl (.str s) ++ rest =
            '"' :: (escList s.data ++ ('"' :: rest)) := by
          show ('"' :: (escList s.data ++ ['"'])) ++ rest = _
          simp [List.cons_append, List.append_assoc]
        rw [hl]
        show (match parseStrChars (escList s.data ++ ('"' :: rest)) with
          | some (s2, r) => some (JsVal.str ⟨s2⟩, r)
          | none => none) = _
        rw [parseStr_escape]
      | num lex =>
        have hok : parseNum lex.data = some (lex, []) := of_decide_eq_true hwf
        obtain ⟨sign, ip, fp, ep, hs, hip, hfp, hep, hlex, _⟩ :=
          parseNum_spec lex.data lex [] hok
        obtain ⟨c, t, hdata, hcd⟩ := parseNum_head lex.data lex [] hok
        obtain ⟨f1, f2, f3, f4, f5, f6, f7, _, _, _⟩ := numHead_facts c hcd
        show parseVal (n + 1) (lex.data ++ rest) = some (.num lex, rest)
        rw [hdata, List.cons_append]
        have hred : parseVal (n + 1) (c :: (t ++ rest)) =
            (match parseNum (c :: (t ++ rest)) with
             | some (lex2, r) => some (JsVal.num lex2, r)
             | none => none) := by
          simp only [parseVal, skipWs_cons_not c _ f1, if_neg f2, if_neg f3, if_neg f4,
            if_neg f5, if_neg f6, if_neg f7]
        rw [hred, show c :: (t ++ rest) = lex.data ++ rest from by rw [hdata]; rfl]
        have hemit := parseNum_emit sign ip fp ep rest hs hip hfp hep hb
        rw [show lex.data ++ rest = sign ++ (ip ++ (fp ++ (ep ++ rest))) from by
          rw [hlex]; simp [List.append_assoc]]
        rw [hemit, ← hlex]
      | arr xs =>
        cases xs with
        | nil => rfl
        | cons x xs =>
          have hwx : wfVal x = true ∧ wfList xs = true := by
            simpa [wfVal, wfList, Bool.and_eq_true] using hwf
          have hfl : FvList (x :: xs) ≤ n := by
            simp only [FvVal] at hfv
            omega
          have hl : renderP lvl (.arr (x :: xs)) ++ rest =
              '[' :: ('\n' :: (indentSp (lvl + 1) ++ (renderP (lvl + 1) x ++
                (renderElemsP (lvl + 1) xs ++
                  '\n' :: (indentSp lvl ++ ']' :: rest))))) := by
            show ('[' :: '\n' :: (indentSp (lvl + 1) ++ renderP (lvl + 1) x ++
              renderElemsP (lvl + 1) xs ++ '\n' :: (indentSp lvl ++ [']']))) ++ rest = _
            simp [List.cons_append, List.append_assoc]
          rw [hl]
          show (match skipWs ('\n' :: (indentSp (lvl + 1) ++ (renderP (lvl + 1) x ++
              (renderElemsP (lvl + 1) xs ++ '\n' :: (indentSp lvl ++ ']' :: rest))))) with
            | [] => none
            | c2 :: r2 =>
              if c2 = ']' then some (JsVal.arr [], r2)
              else
                match parseElems n (c2 :: r2) with
                | some (vs, r) => some (JsVal.arr vs, r)
                | none => none) = _
          rw [skipWs_ws '\n' _ rfl, skipWs_indent, skipWs_renderP _ x hwx.1]
          obtain ⟨c2, t2, hx, _, hne1, _, _⟩ := renderP_shape (lvl + 1) x hwx.1
          rw [hx, List.cons_append]
          show (if c2 = ']' then some (JsVal.arr [], t2 ++ (renderElemsP (lvl + 1) xs ++
              '\n' :: (indentSp lvl ++ ']' :: rest)))
            else
              match parseElems n (c2 :: (t2 ++ (renderElemsP (lvl + 1) xs ++
                  '\n' :: (indentSp lvl ++ ']' :: rest)))) with
              | some (vs, r) => some (JsVal.arr vs, r)
              | none => none) = _
          rw [if_neg hne1, show c2 :: (t2 ++ (renderElemsP (lvl + 1) xs ++
              '\n' :: (indentSp lvl ++ ']' :: rest))) =
            (c2 :: t2) ++ (renderElemsP (lvl + 1) xs ++
              '\n' :: (indentSp lvl ++ ']' :: rest)) from rfl, ← hx]
          rw [ihe x xs (lvl + 1) lvl rest hwx.1 hwx.2 hfl]
      | obj kvs =>
        cases kvs with
        | nil => rfl
        | cons kv kvs =>
          obtain ⟨k, v⟩ := kv
          have hfm : FvMembers ((k, v) :: kvs) ≤ n := by
            simp only [FvVal] at hfv
            omega
          have hl : renderP lvl (.obj ((k, v) :: kvs)) ++ rest =
              '{' :: ('\n' :: (indentSp (lvl + 1) ++ (renderMemberP (lvl + 1) (k, v) ++
                (renderMembersP (lvl + 1) kvs ++
                  '\n' :: (indentSp lvl ++ '}' :: rest))))) := by
            show ('{' :: '\n' :: (indentSp (lvl + 1) ++ renderMemberP (lvl + 1) (k, v) ++
              renderMembersP (lvl + 1) kvs ++ '\n' :: (indentSp lvl ++ ['}']))) ++ rest = _
            simp [List.cons_append, List.append_assoc]
          rw [hl]
          show (match skipWs ('\n' :: (indentSp (lvl + 1) ++
              (renderMemberP (lvl + 1) (k, v) ++ (renderMembersP (lvl + 1) kvs ++
                '\n' :: (indentSp lvl ++ '}' :: rest))))) with
            | [] => none
            | c2 :: r2 =>
              if c2 = '}' then some (JsVal.obj [], r2)
              else
                match parseMembers n (c2 :: r2) with
                | some (ms, r) => some (JsVal.obj (buildObj ms), r)
                | none => none) = _
          rw [skipWs_ws '\n' _ rfl, skipWs_indent]
          have hqk : renderMemberP (lvl + 1) (k, v) ++ (renderMembersP (lvl + 1) kvs ++
              '\n' :: (indentSp lvl ++ '}' :: rest)) =
              '"' :: ((escList k.data ++ ['"'] ++ (':' :: ' ' :: renderP (lvl + 1) v)) ++
                (renderMembersP (lvl + 1) kvs ++ '\n' :: (indentSp lvl ++ '}' :: rest))) := by
            show (('"' :: (escList k.data ++ ['"'])) ++ ':' :: ' ' :: renderP (lvl + 1) v) ++
              _ = _
            simp [List.cons_append, List.append_assoc]
          rw [hqk, skipWs_cons_not '"' _ rfl]
          show (if ('"' : Char) = '}' then some (JsVal.obj [], (escList k.data ++ ['"'] ++
              (':' :: ' ' :: renderP (lvl + 1) v)) ++ (renderMembersP (lvl + 1) kvs ++
                '\n' :: (indentSp lvl ++ '}' :: rest)))
            else
              match parseMembers n ('"' :: ((escList k.data ++ ['"'] ++
                  (':' :: ' ' :: renderP (lvl + 1) v)) ++ (renderMembersP (lvl + 1) kvs ++
                  '\n' :: (indentSp lvl ++ '}' :: rest)))) with
              | some (ms, r) => some (JsVal.obj (buildObj ms), r)
              | none => none) = _
          rw [if_neg (by decide : ¬('"' : Char) = '}')]
          have hmem : parseMembers n ('"' :: ((escList k.data ++ ['"'] ++
              (':' :: ' ' :: renderP (lvl + 1) v)) ++ (renderMembersP (lvl + 1) kvs ++
              '\n' :: (indentSp lvl ++ '}' :: rest)))) = some ((k, v) :: kvs, rest) := by
            have := ihm k v kvs (lvl + 1) lvl rest hwf hfm
            rw [show renderMemberP (lvl + 1) (k, v) ++ (renderMembersP (lvl + 1) kvs ++
                '\n' :: (indentSp lvl ++ '}' :: rest)) =
              '"' :: ((escList k.data ++ ['"'] ++ (':' :: ' ' :: renderP (lvl + 1) v)) ++
                (renderMembersP (lvl + 1) kvs ++ '\n' :: (indentSp lvl ++ '}' :: rest)))
              from hqk] at this
            exact this
          rw [hmem]
          show some (JsVal.obj (buildObj ((k, v) :: kvs)), rest) = _
          rw [buildObj_self ((k, v) :: kvs) hwf]
    · intro x xs lvl m rest hwx hwxs hfl
      have hfvx : FvVal x ≤ n := by
        have := FvList_pos xs
        simp only [FvList] at hfl
        omega
      have hbZ : numBoundaryB (renderElemsP lvl xs ++
          '\n' :: (indentSp m ++ ']' :: rest)) = true :=
        numBoundaryB_elemsCtx lvl xs _
      show (match parseVal n (renderP lvl x ++ (renderElemsP lvl xs ++
          '\n' :: (indentSp m ++ ']' :: rest))) with
        | none => none
        | some (v, r) =>
          match skipWs r with
          | [] => none
          | c2 :: r2 =>
            if c2 = ',' then
              match parseElems n r2 with
              | some (vs, r3) => some (v :: vs, r3)
              | none => none
            else if c2 = ']' then some ([v], r2)
            else none) = _
      rw [ihv x lvl _ hwx hfvx hbZ]
      cases xs with
      | nil =>
        show (match skipWs ('\n' :: (indentSp m ++ ']' :: rest)) with
          | [] => none
          | c2 :: r2 =>
            if c2 = ',' then
              match parseElems n r2 with
              | some (vs, r3) => some (x :: vs, r3)
              | none => none
            else if c2 = ']' then some ([x], r2)
            else none) = _
        rw [skipWs_ws '\n' _ rfl, skipWs_indent, skipWs_cons_not ']' _ rfl]
        rfl
      | cons y ys =>
        have hwy : wfVal y = true ∧ wfList ys = true := by
          simpa [wfList, Bool.and_eq_true] using hwxs
        have hfly : FvList (y :: ys) ≤ n := by
          simp only [FvList] at hfl ⊢
          have := FvVal_pos x
          omega
        have hz : renderElemsP lvl (y :: ys) ++ '\n' :: (indentSp m ++ ']' :: rest) =
            ',' :: ('\n' :: (indentSp lvl ++ (renderP lvl y ++ (renderElemsP lvl ys ++
              '\n' :: (indentSp m ++ ']' :: rest))))) := by
          show (',' :: '\n' :: (indentSp lvl ++ renderP lvl y ++ renderElemsP lvl ys)) ++
            _ = _
          simp [List.cons_append, List.append_assoc]
        rw [hz]
        show (match skipWs (',' :: ('\n' :: (indentSp lvl ++ (renderP lvl y ++
            (renderElemsP lvl ys ++ '\n' :: (indentSp m ++ ']' :: rest)))))) with
          | [] => none
          | c2 :: r2 =>
            if c2 = ',' then
              match parseElems n r2 with
              | some (vs, r3) => some (x :: vs, r3)
              | none => none
            else if c2 = ']' then some ([x], r2)
            else none) = _
        rw [skipWs_cons_not ',' _ rfl]
        have hrec : parseElems n ('\n' :: (indentSp lvl ++ (renderP lvl y ++
            (renderElemsP lvl ys ++ '\n' :: (indentSp m ++ ']' :: rest))))) =
            some (y :: ys, rest) := by
          rw [← parseElems_skipWs n _,
            show skipWs ('\n' :: (indentSp lvl ++ (renderP lvl y ++
              (renderElemsP lvl ys ++ '\n' :: (indentSp m ++ ']' :: rest))))) =
              renderP lvl y ++ (renderElemsP lvl ys ++
                '\n' :: (indentSp m ++ ']' :: rest)) from by
              rw [skipWs_ws '\n' _ rfl, skipWs_indent, skipWs_renderP lvl y hwy.1]]
          exact ihe y ys lvl m rest hwy.1 hwy.2 hfly
        show (if (',' : Char) = ',' then
            match parseElems n ('\n' :: (indentSp lvl ++ (renderP lvl y ++
              (renderElemsP lvl ys ++ '\n' :: (indentSp m ++ ']' :: rest))))) with
            | some (vs, r3) => some (x :: vs, r3)
            | none => none
          else _) = _
        rw [if_pos rfl, hrec]
    · intro k v kvs lvl m rest hwm hfm
      have hwparts : hasKeyB kvs k = false ∧ wfVal v = true ∧ wfMembers kvs = true := by
        have := hwm
        simp only [wfMembers, Bool.and_eq_true, Bool.not_eq_true'] at this
        exact ⟨this.1.1, this.1.2, this.2⟩
      have hfvv : FvVal v ≤ n := by
        have := FvMembers_pos kvs
        simp only [FvMembers] at hfm
        omega
      have hbZ : numBoundaryB (renderMembersP lvl kvs ++
          '\n' :: (indentSp m ++ '}' :: rest)) = true :=
        numBoundaryB_membersCtx lvl kvs _
      have hqk : renderMemberP lvl (k, v) ++ (renderMembersP lvl kvs ++
          '\n' :: (indentSp m ++ '}' :: rest)) =
          '"' :: (escList k.data ++ ('"' :: (':' :: (' ' :: (renderP lvl v ++
            (renderMembersP lvl kvs ++ '\n' :: (indentSp m ++ '}' :: rest))))))) := by
        show (('"' :: (escList k.data ++ ['"'])) ++ ':' :: ' ' :: renderP lvl v) ++ _ = _
        simp [List.cons_append, List.append_assoc]
      rw [hqk]
      show (match skipWs ('"' :: (escList k.data ++ ('"' :: (':' :: (' ' ::
          (renderP lvl v ++ (renderMembersP lvl kvs ++
            '\n' :: (indentSp m ++ '}' :: rest)))))))) with
        | [] => none
        | c0 :: rest0 =>
          if c0 = '"' then
            match parseStrChars rest0 with
            | none => none
            | some (k2, r) =>
              match skipWs r with
              | [] => none
              | c1 :: r2 =>
                if c1 = ':' then
                  match parseVal n r2 with
                  | none => none
                  | some (v2, r3) =>
                    match skipWs r3 with
                    | [] => none
                    | c2 :: r4 =>
                      if c2 = ',' then
                        match parseMembers n r4 with
                        | some (ms, r5) => some ((String.mk k2, v2) :: ms, r5)
                        | none => none
                      else if c2 = '}' then some ([(String.mk k2, v2)], r4)
                      else none
                else none
          else none) = _
      rw [skipWs_cons_not '"' _ rfl]
      show (if ('"' : Char) = '"' then
          match parseStrChars (escList k.data ++ ('"' :: (':' :: (' ' ::
            (renderP lvl v ++ (renderMembersP lvl kvs ++
              '\n' :: (indentSp m ++ '}' :: rest))))))) with
          | none => none
          | some (k2, r) =>
            match skipWs r with
            | [] => none
            | c1 :: r2 =>
              if c1 = ':' then
                match parseVal n r2 with
                | none => none
                | some (v2, r3) =>
                  match skipWs r3 with
                  | [] => none
                  | c2 :: r4 =>
                    if c2 = ',' then
                      match parseMembers n r4 with
                      | some (ms, r5) => some ((String.mk k2, v2) :: ms, r5)
                      | none => none
                    else if c2 = '}' then some ([(String.mk k2, v2)], r4)
                    else none
              else none
        else none) = _
      rw [if_pos rfl, parseStr_escape]
      have hv : parseVal n (' ' :: (renderP lvl v ++ (renderMembersP lvl kvs ++
          '\n' :: (indentSp m ++ '}' :: rest)))) = some (v, renderMembersP lvl kvs ++
          '\n' :: (indentSp m ++ '}' :: rest)) := by
        rw [← parseVal_skipWs n _,
          show skipWs (' ' :: (renderP lvl v ++ (renderMembersP lvl kvs ++
            '\n' :: (indentSp m ++ '}' :: rest)))) =
            renderP lvl v ++ (renderMembersP lvl kvs ++
              '\n' :: (indentSp m ++ '}' :: rest)) from by
            rw [skipWs_ws ' ' _ rfl, skipWs_renderP lvl v hwparts.2.1]]
        exact ihv v lvl _ hwparts.2.1 hfvv hbZ
      show (match skipWs (':' :: (' ' :: (renderP lvl v ++ (renderMembersP lvl kvs ++
          '\n' :: (indentSp m ++ '}' :: rest))))) with
        | [] => none
        | c1 :: r2 =>
          if c1 = ':' then
            match parseVal n r2 with
            | none => none
            | some (v2, r3) =>
              match skipWs r3 with
              | [] => none
              | c2 :: r4 =>
                if c2 = ',' then
                  match parseMembers n r4 with
                  | some (ms, r5) => some ((String.mk k.data, v2) :: ms, r5)
                  | none => none
                else if c2 = '}' then some ([(String.mk k.data, v2)], r4)
                else none
          else none) = _
      rw [skipWs_cons_not ':' _ rfl]
      show (if (':' : Char) = ':' then
          match parseVal n (' ' :: (renderP lvl v ++ (renderMembersP lvl kvs ++
            '\n' :: (indentSp m ++ '}' :: rest)))) with
          | none => none
          | some (v2, r3) =>
            match skipWs r3 with
            | [] => none
            | c2 :: r4 =>
              if c2 = ',' then
                match parseMembers n r4 with
                | some (ms, r5) => some ((String.mk k.data, v2) :: ms, r5)
                | none => none
              else if c2 = '}' then some ([(String.mk k.data, v2)], r4)
              else none
        else none) = _
      rw [if_pos rfl, hv]
      cases kvs with
      | nil =>
        show (match skipWs ('\n' :: (indentSp m ++ '}' :: rest)) with
          | [] => none
          | c2 :: r4 =>
            if c2 = ',' then
              match parseMembers n r4 with
              | some (ms, r5) => some ((String.mk k.data, v) :: ms, r5)
              | none => none
            else if c2 = '}' then some ([(String.mk k.data, v)], r4)
            else none) = _
        rw [skipWs_ws '\n' _ rfl, skipWs_indent, skipWs_cons_not '}' _ rfl]
        rfl
      | cons kv2 kvs2 =>
        obtain ⟨k2, v2⟩ := kv2
        have hwm2 : wfMembers ((k2, v2) :: kvs2) = true := hwparts.2.2
        have hfm2 : FvMembers ((k2, v2) :: kvs2) ≤ n := by
          have := FvVal_pos v
          simp only [FvMembers] at hfm ⊢
          omega
        have hz : renderMembersP lvl ((k2, v2) :: kvs2) ++
            '\n' :: (indentSp m ++ '}' :: rest) =
            ',' :: ('\n' :: (indentSp lvl ++ (renderMemberP lvl (k2, v2) ++
              (renderMembersP lvl kvs2 ++ '\n' :: (indentSp m ++ '}' :: rest))))) := by
          show (',' :: '\n' :: (indentSp lvl ++ renderMemberP lvl (k2, v2) ++
            renderMembersP lvl kvs2)) ++ _ = _
          simp [List.cons_append, List.append_assoc]
        rw [hz]
        have hrec : parseMembers n ('\n' :: (indentSp lvl ++
            (renderMemberP lvl (k2, v2) ++ (renderMembersP lvl kvs2 ++
              '\n' :: (indentSp m ++ '}' :: rest))))) =
            some ((k2, v2) :: kvs2, rest) := by
          rw [← parseMembers_skipWs n _,
            show skipWs ('\n' :: (indentSp lvl ++ (renderMemberP lvl (k2, v2) ++
              (renderMembersP lvl kvs2 ++ '\n' :: (indentSp m ++ '}' :: rest))))) =
              renderMemberP lvl (k2, v2) ++ (renderMembersP lvl kvs2 ++
                '\n' :: (indentSp m ++ '}' :: rest)) from by
              rw [skipWs_ws '\n' _ rfl, skipWs_indent]
              have : renderMemberP lvl (k2, v2) ++ (renderMembersP lvl kvs2 ++
                  '\n' :: (indentSp m ++ '}' :: rest)) =
                  '"' :: ((escList k2.data ++ ['"'] ++ ':' :: ' ' :: renderP lvl v2) ++
                    (renderMembersP lvl kvs2 ++ '\n' :: (indentSp m ++ '}' :: rest))) := by
                show (('"' :: (escList k2.data ++ ['"'])) ++
                  ':' :: ' ' :: renderP lvl v2) ++ _ = _
                simp [List.cons_append, List.append_assoc]
              rw [this, skipWs_cons_not '"' _ rfl]]
          exact ihm k2 v2 kvs2 lvl m rest hwm2 hfm2
        show (match skipWs (',' :: ('\n' :: (indentSp lvl ++
            (renderMemberP lvl (k2, v2) ++ (renderMembersP lvl kvs2 ++
              '\n' :: (indentSp m ++ '}' :: rest)))))) with
          | [] => none
          | c2 :: r4 =>
            if c2 = ',' then
              match parseMembers n r4 with
              | some (ms, r5) => some ((String.mk k.data, v) :: ms, r5)
              | none => none
            else if c2 = '}' then some ([(String.mk k.data, v)], r4)
            else none) = _
        rw [skipWs_cons_not ',' _ rfl]
        show (if (',' : Char) = ',' then
            match parseMembers n ('\n' :: (indentSp lvl ++
              (renderMemberP lvl (k2, v2) ++ (renderMembersP lvl kvs2 ++
                '\n' :: (indentSp m ++ '}' :: rest))))) with
            | some (ms, r5) => some ((String.mk k.data, v) :: ms, r5)
            | none => none
          else _) = _
        rw [if_pos rfl, hrec]

/-- The parser fuel needed for a value is bounded by the length of its
pretty-printed rendering plus one. -/
theorem fuel_le_render (N : Nat) :
    (∀ v lvl, FvVal v ≤ N → FvVal v ≤ (renderP lvl v).length + 1) ∧
    (∀ xs lvl, FvList xs ≤ N → FvList xs ≤ (renderElemsP lvl xs).length + 1) ∧
    (∀ kvs lvl, FvMembers kvs ≤ N →
      FvMembers kvs ≤ (renderMembersP lvl kvs).length + 1) := by
  induction N with
  | zero =>
    refine ⟨fun v lvl h => absurd h (by have := FvVal_pos v; omega),
      fun xs lvl h => absurd h (by have := FvList_pos xs; omega),
      fun kvs lvl h => absurd h (by have := FvMembers_pos kvs; omega)⟩
  | succ n ih =>
    refine ⟨?_, ?_, ?_⟩
    · intro v lvl h
      cases v with
      | null => simp only [FvVal]; omega
      | bool b => simp only [FvVal]; omega
      | num lex => simp only [FvVal]; omega
      | str s => simp only [FvVal]; omega
      | arr xs =>
        cases xs with
        | nil => simp [FvVal, FvList, renderP]
        | cons x xs =>
          have h1 : FvVal x ≤ n := by
            have := FvList_pos xs
            simp only [FvVal, FvList] at h
            omega
          have h2 : FvList xs ≤ n := by
            have := FvVal_pos x
            simp only [FvVal, FvList] at h
            omega
          have e1 := ih.1 x (lvl + 1) h1
          have e2 := ih.2.1 xs (lvl + 1) h2
          simp only [FvVal, FvList, renderP, List.length_cons,
            List.length_append] at e1 e2 ⊢
          omega
      | obj kvs =>
        cases kvs with
        | nil => simp [FvVal, FvMembers, renderP]
        | cons kv kvs =>
          obtain ⟨k, v⟩ := kv
          have h1 : FvVal v ≤ n := by
            have := FvMembers_pos kvs
            simp only [FvVal, FvMembers] at h
            omega
          have h2 : FvMembers kvs ≤ n := by
            have := FvVal_pos v
            simp only [FvVal, FvMembers] at h
            omega
          have e1 := ih.1 v (lvl + 1) h1
          have e2 := ih.2.2 kvs (lvl + 1) h2
          simp only [FvVal, FvMembers, renderP, renderMemberP, List.length_cons,
            List.length_append] at e1 e2 ⊢
          omega
    · intro xs lvl h
      cases xs with
      | nil => simp only [FvList]; omega
      | cons x xs =>
        have h1 : FvVal x ≤ n := by
          have := FvList_pos xs
          simp only [FvList] at h
          omega
        have h2 : FvList xs ≤ n := by
          have := FvVal_pos x
          simp only [FvList] at h
          omega
        have e1 := ih.1 x lvl h1
        have e2 := ih.2.1 xs lvl h2
        simp only [FvList, renderElemsP, List.length_cons,
          List.length_append] at e1 e2 ⊢
        omega
    · intro kvs lvl h
      cases kvs with
      | nil => simp only [FvMembers]; omega
      | cons kv kvs =>
        obtain ⟨k, v⟩ := kv
        have h1 : FvVal v ≤ n := by
          have := FvMembers_pos kvs
          simp only [FvMembers] at h
          omega
        have h2 : FvMembers kvs ≤ n := by
          have := FvVal_pos v
          simp only [FvMembers] at h
          omega
        have e1 := ih.1 v lvl h1
        have e2 := ih.2.2 kvs lvl h2
        simp only [FvMembers, renderMembersP, renderMemberP, List.length_cons,
          List.length_append] at e1 e2 ⊢
        omega

/-- Parsing the pretty-printed rendering of a wellformed value returns that
value: `JSON.parse(JSON.stringify(v, null, 2))` is the identity here. -/
theorem jsparse_stringify2 (v : JsVal) (hwf : wfVal v = true) :
    jsparse (stringify2 v) = some v := by
  have hfuel : FvVal v ≤ (renderP 0 v).length + 1 :=
    (fuel_le_render (FvVal v)).1 v 0 le_rfl
  have h := (render_roundtrip ((renderP 0 v).length + 1)).1 v 0 [] hwf hfuel rfl
  rw [List.append_nil] at h
  show (match parseVal ((renderP 0 v).length + 1) (renderP 0 v) with
    | some (v2, rest) => if skipWs rest = [] then some v2 else none
    | none => none) = some v
  rw [h]
  rfl

/-- C3: when both reply strings parse as JSON, `heuristicMerge` returns
exactly the pretty-printed document nesting the two parsed values under the
`merged.gemini` and `merged.openai` labels, and that output string itself
parses back to that nested document (so the output is a single parseable
structured string); when either input fails to parse, the merger falls
through to the marker-based step. -/
theorem C3_structured_merge (g o : String) (gj oj : JsVal)
    (hg : jsparse g = some gj) (ho : jsparse o = some oj) :
    heuristicMerge g o =
      stringify2 (.obj [("merged", .obj [("gemini", gj), ("openai", oj)])]) ∧
    jsparse (heuristicMerge g o) =
      some (.obj [("merged", .obj [("gemini", gj), ("openai", oj)])]) ∧
    ∀ g2 o2 : String, (jsparse g2 = none ∨ jsparse o2 = none) →
      heuristicMerge g2 o2 = markerMerge g2 o2 := by
  have hme : heuristicMerge g o =
      stringify2 (.obj [("merged", .obj [("gemini", gj), ("openai", oj)])]) := by
    unfold heuristicMerge
    rw [hg, ho]
  have hwf : wfVal (.obj [("merged",
      .obj [("gemini", gj), ("openai", oj)])]) = true := by
    have hwg := jsparse_wf g gj hg
    have hwo := jsparse_wf o oj ho
    simp [wfVal, wfMembers, hasKeyB, hwg, hwo]
  exact ⟨hme, by rw [hme]; exact jsparse_stringify2 _ hwf,
    fun g2 o2 h2 => heuristicMerge_fallthrough g2 o2 h2⟩

/-- Witness for C3 at the spec's example inputs `\x7b"a":1\x7d` and
`\x7b"b":2\x7d`. -/
theorem C3_structured_merge_witness :
    jsparse "\x7b\"a\":1\x7d" = some (.obj [("a", .num "1")]) ∧
    jsparse "\x7b\"b\":2\x7d" = some (.obj [("b", .num "2")]) ∧
    (heuristicMerge "\x7b\"a\":1\x7d" "\x7b\"b\":2\x7d" =
      stringify2 (.obj [("merged", .obj [("gemini", .obj [("a", .num "1")]),
        ("openai", .obj [("b", .num "2")])])]) ∧
    jsparse (heuristicMerge "\x7b\"a\":1\x7d" "\x7b\"b\":2\x7d") =
      some (.obj [("merged", .obj [("gemini", .obj [("a", .num "1")]),
        ("openai", .obj [("b", .num "2")])])]) ∧
    ∀ g2 o2 : String, (jsparse g2 = none ∨ jsparse o2 = none) →
      heuristicMerge g2 o2 = markerMerge g2 o2) :=
  ⟨rfl, rfl, C3_structured_merge _ _ _ _ rfl rfl⟩
